import Mathlib

/-!
Verification development for the cointracker wallet synchronization engine
(`cointracker_app.py`).

The embedding models:
  * the data model (`Wallet`, `Transaction`, `SyncRun`, and the relational
    store holding them);
  * the retrying HTTP fetcher `_request_with_retry` (modelled as
    `request_with_retry` over an abstract sequence of HTTP responses);
  * the sync orchestrator `sync_wallet` (page loop, checkpointing, dedup
    insert, completion and error handling), driven by an abstract upstream
    oracle `Nat → PageStep` mapping a pagination offset to the outcome of
    fetching that page.

Machine integers are modelled as `Nat`/`Int` (SQLite integers are unbounded
for the ranges involved; Python ints are arbitrary precision).  A crash of
the worker process mid-sync is modelled by running the page loop with
bounded fuel: the store returned at fuel exhaustion is exactly the
committed state at the last page boundary, matching the commit placement
in the source (`db.session.commit()` after every page, rollback on error).
-/

namespace Cointracker

/-! ### Data model (`Wallet`, `Transaction`, `SyncRun` SQLAlchemy models) -/

inductive SyncStatus
  | in_progress
  | completed
  | error
deriving DecidableEq, Repr

structure Wallet where
  id : Nat
  address : String
  balance_sat : Int
  last_synced_at : Option Nat
deriving DecidableEq, Repr

/-- A `Transaction` row as far as the sync engine populates it: the source
only ever writes `wallet_id` and `tx_hash` (timestamp/direction/amount/fee
are left NULL and never touched), so they are omitted. -/
structure Transaction where
  wallet_id : Nat
  tx_hash : String
deriving DecidableEq, Repr

structure SyncRun where
  id : Nat
  wallet_id : Nat
  started_at : Nat
  ended_at : Option Nat
  status : SyncStatus
  current_offset : Nat
  error_message : Option String
  is_latest : Bool
deriving DecidableEq, Repr

/-- The relational store: the three tables, rows in insertion (rowid)
order. -/
structure Store where
  wallets : List Wallet
  transactions : List Transaction
  sync_runs : List SyncRun
deriving DecidableEq, Repr

/-! ### Decoded API payload

`{"data": {"<address>": {"address": {"balance": ...},
"transactions": [...]}}}`.  Every field is optional, mirroring the chain of
`.get(..., default)` accesses in the source: `entryForWallet` stands for
`data.get("data", {}).get(wallet.address, {})`. -/

structure AddressMeta where
  balance : Option Int
deriving DecidableEq, Repr

structure AddressEntry where
  address : Option AddressMeta
  transactions : Option (List String)
deriving DecidableEq, Repr

structure Payload where
  entryForWallet : Option AddressEntry
deriving DecidableEq, Repr

/-! ### Constants -/

def PAGE_SIZE : Nat := 100
def MAX_RETRIES : Nat := 5
/-- `RATE_LIMIT_SLEEP = 1.0`; it is only ever passed through `int()`, so it
is modelled as the integer 1. -/
def RATE_LIMIT_SLEEP : Int := 1

/-! ### The retrying fetcher `_request_with_retry`

One call is modelled against an abstract server behaviour
`resp : Nat → HttpResponse` giving the response to the i-th HTTP request
issued by this call (0-based). -/

inductive HttpResponse
  | ok (payload : Payload)
  | rateLimited (retryAfterHeader : Option String)
  | reqError (msg : String)
deriving Repr

/-- Outcome of `_request_with_retry`, instrumented with the number of HTTP
requests issued and the list of sleeps performed (in seconds, in order).
`exhausted` is the `raise exc` after the retry cap, `parseCrash` is an
uncaught `ValueError` escaping from `int(...)` on a malformed
`Retry-After` header, and `unreachable` is the
`RuntimeError("unreachable retry loop")` after the `while` guard fails. -/
inductive FetchResult
  | success (payload : Payload) (requests : Nat) (sleeps : List Int)
  | exhausted (msg : String) (requests : Nat) (sleeps : List Int)
  | parseCrash (requests : Nat) (sleeps : List Int)
  | unreachable (requests : Nat) (sleeps : List Int)
deriving DecidableEq, Repr

def FetchResult.requests : FetchResult → Nat
  | .success _ n _ => n
  | .exhausted _ n _ => n
  | .parseCrash n _ => n
  | .unreachable n _ => n

def FetchResult.sleeps : FetchResult → List Int
  | .success _ _ s => s
  | .exhausted _ _ s => s
  | .parseCrash _ s => s
  | .unreachable _ s => s

/-- ASCII whitespace stripped by Python `int(str)`. -/
def pySpace (c : Char) : Bool :=
  c = ' ' || c = '\t' || c = '\n' || c = '\r' || c = '\x0b' || c = '\x0c'

def pyDigit (c : Char) : Bool := '0' ≤ c && c ≤ '9'

def digitsToNat (cs : List Char) : Nat :=
  cs.foldl (fun a c => a * 10 + (c.toNat - '0'.toNat)) 0

/-- Python `int(s)` on a string: optional surrounding whitespace, optional
sign, then a non-empty run of decimal digits; anything else raises
`ValueError` (modelled as `none`).  Underscore digit separators and
non-ASCII digits accepted by CPython are not modelled. -/
def pyIntParse (s : String) : Option Int :=
  match ((s.data.dropWhile pySpace).reverse.dropWhile pySpace).reverse with
  | [] => none
  | c :: rest =>
    if c = '-' then
      if rest ≠ [] ∧ rest.all pyDigit then some (-(digitsToNat rest : Int)) else none
    else if c = '+' then
      if rest ≠ [] ∧ rest.all pyDigit then some ((digitsToNat rest : Int)) else none
    else
      if (c :: rest).all pyDigit then some ((digitsToNat (c :: rest) : Int)) else none

/-- `int(resp.headers.get("Retry-After", RATE_LIMIT_SLEEP))`: a missing
header falls back to `int(1.0) = 1`; a present header goes through
`int(str)` and may raise (`none`). -/
def retryAfterSeconds (header : Option String) : Option Int :=
  match header with
  | none => some RATE_LIMIT_SLEEP
  | some s => pyIntParse s

/-- The `while attempt < MAX_RETRIES` loop of `_request_with_retry`,
unrolled on the fuel `MAX_RETRIES - attempt` (both branches of the loop
body increment `attempt` by exactly one, so the fuel and the `attempt`
counter stay in lockstep).  `made` counts HTTP requests issued so far. -/
def requestRetryAux (resp : Nat → HttpResponse) :
    Nat → Nat → Nat → List Int → FetchResult
  | 0, _, made, sleeps => .unreachable made sleeps
  | fuel+1, attempt, made, sleeps =>
    match resp made with
    | .ok p => .success p (made+1) sleeps
    | .rateLimited hdr =>
      match retryAfterSeconds hdr with
      | none => .parseCrash (made+1) sleeps
      | some v => requestRetryAux resp fuel (attempt+1) (made+1) (sleeps ++ [v])
    | .reqError msg =>
      if attempt + 1 ≥ MAX_RETRIES then
        .exhausted msg (made+1) (sleeps ++ [(2:Int)^(attempt+1)])
      else
        requestRetryAux resp fuel (attempt+1) (made+1) (sleeps ++ [(2:Int)^(attempt+1)])

def request_with_retry (resp : Nat → HttpResponse) : FetchResult :=
  requestRetryAux resp MAX_RETRIES 0 0 []

/-! ### Orchestrator: page-level semantics

Each loop iteration of `sync_wallet` fetches one page at the current
offset.  `PageStep` is the outcome the environment assigns to that fetch:
either `_request_with_retry` raised (`fetchFail`, covering retry
exhaustion, the `int()` crash, or the unreachable-loop error), or it
returned a decoded payload; `commitError = some e` models the per-page
`db.session.commit()` (or an autoflush inside the dedup query) raising. -/

inductive PageStep
  | fetchFail (msg : String)
  | page (payload : Payload) (commitError : Option String)
deriving DecidableEq, Repr

/-- `entry = data.get("data", {}).get(wallet.address, {})`. -/
def pageEntry (p : Payload) : AddressEntry :=
  p.entryForWallet.getD ⟨none, none⟩

/-- `wallet.balance_sat = address_meta.get("balance", wallet.balance_sat)`:
`current` is the in-memory `wallet.balance_sat` at that point. -/
def pageBalance (p : Payload) (current : Int) : Int :=
  (((pageEntry p).address.getD ⟨none⟩).balance).getD current

/-- The raw `address.balance` field of a payload, when present. -/
def balanceField (p : Payload) : Option Int :=
  ((pageEntry p).address.getD ⟨none⟩).balance

/-- `tx_hashes = entry.get("transactions", [])`. -/
def pageTxs (p : Payload) : List String :=
  (pageEntry p).transactions.getD []

/-- `Transaction.query.filter_by(wallet_id=..., tx_hash=...).first()` as a
boolean existence check (the query autoflushes, so pending inserts of the
same page are visible to it). -/
def txnExists (txns : List Transaction) (wid : Nat) (h : String) : Bool :=
  txns.any (fun t => t.wallet_id == wid && t.tx_hash == h)

/-- The per-page insert loop: for each hash in order, insert a new row
only if no row with that `(wallet_id, tx_hash)` already exists. -/
def insertTxns (txns : List Transaction) (wid : Nat) (hashes : List String) :
    List Transaction :=
  hashes.foldl (fun acc h => if txnExists acc wid h then acc else acc ++ [⟨wid, h⟩]) txns

def setWalletBalance (ws : List Wallet) (wid : Nat) (bal : Int) : List Wallet :=
  ws.map (fun w => if w.id == wid then { w with balance_sat := bal } else w)

def setRunOffset (rs : List SyncRun) (rid : Nat) (off : Nat) : List SyncRun :=
  rs.map (fun r => if r.id == rid then { r with current_offset := off } else r)

/-- The per-page `db.session.commit()`: balance write, dedup inserts and
the checkpointed offset become durable together. -/
def commitPage (st : Store) (wid rid : Nat) (bal : Int) (newOff : Nat)
    (hashes : List String) : Store :=
  { wallets := setWalletBalance st.wallets wid bal
    transactions := insertTxns st.transactions wid hashes
    sync_runs := setRunOffset st.sync_runs rid newOff }

/-- Result of the page loop.  `crashed` is fuel exhaustion, i.e. the
process was killed between two page commits; the store carried is the
durable state at that instant. -/
inductive LoopOut
  | finished (st : Store) (bal : Int) (fetched : Nat)
  | failed (st : Store) (msg : String) (fetched : Nat)
  | crashed (st : Store) (fetched : Nat)
deriving Repr

def LoopOut.store : LoopOut → Store
  | .finished st _ _ => st
  | .failed st _ _ => st
  | .crashed st _ => st

/-- The `while more_data:` page loop of `sync_wallet`.  `bal` is the
in-memory `wallet.balance_sat`, `off` the loop's `offset` variable,
`fetched` the number of pages successfully fetched so far.  On
`fetchFail` nothing of the current page was written, so the rollback
leaves the committed store unchanged; on a commit error the page's
pending writes are rolled back, likewise leaving the committed store
unchanged. -/
def syncLoop (up : Nat → PageStep) (wid rid : Nat) :
    Nat → Store → Int → Nat → Nat → LoopOut
  | 0, st, _, _, fetched => .crashed st fetched
  | fuel+1, st, bal, off, fetched =>
    match up off with
    | .fetchFail msg => .failed st msg fetched
    | .page p cerr =>
      let bal' := pageBalance p bal
      let hashes := pageTxs p
      if hashes.isEmpty then
        .finished st bal' (fetched+1)
      else
        match cerr with
        | some msg => .failed st msg (fetched+1)
        | none =>
          let st' := commitPage st wid rid bal' (off + PAGE_SIZE) hashes
          if hashes.length < PAGE_SIZE then
            .finished st' bal' (fetched+1)
          else
            syncLoop up wid rid fuel st' bal' (off + PAGE_SIZE) (fetched+1)

/-! ### Orchestrator: run management -/

/-- `Wallet.query.get(wallet_id)`. -/
def lookupWallet (st : Store) (wid : Nat) : Option Wallet :=
  st.wallets.find? (fun w => w.id == wid)

/-- `SyncRun.query.filter_by(wallet_id=wallet.id, is_latest=True).first()`. -/
def latestRunFor (st : Store) (wid : Nat) : Option SyncRun :=
  st.sync_runs.find? (fun r => r.wallet_id == wid && r.is_latest)

/-- Point lookup of a run by primary key. -/
def lookupRun (st : Store) (rid : Nat) : Option SyncRun :=
  st.sync_runs.find? (fun r => r.id == rid)

/-- Fresh autoincrement primary key for a new `SyncRun` row. -/
def nextRunId (st : Store) : Nat :=
  (st.sync_runs.map SyncRun.id).foldr max 0 + 1

def setRunLatestFalse (rs : List SyncRun) (rid : Nat) : List SyncRun :=
  rs.map (fun r => if r.id == rid then { r with is_latest := false } else r)

/-- The row `SyncRun(wallet_id=wallet.id, current_offset=0)` created when
no resumable run exists (defaults: `started_at = now`, `in_progress`,
`is_latest = True`, fresh autoincrement id). -/
def freshRun (st : Store) (wid now : Nat) : SyncRun :=
  ⟨nextRunId st, wid, now, none, .in_progress, 0, none, true⟩

/-- Start-or-resume: the lookup-then-act sequence at the top of
`sync_wallet`.  Returns the committed store after the (possible) creation
commit, and the `SyncRun` the loop will drive. -/
def startRun (st : Store) (wid now : Nat) : Store × SyncRun :=
  match latestRunFor st wid with
  | some cs =>
    if cs.status = .in_progress then (st, cs)
    else
      ({ st with sync_runs := setRunLatestFalse st.sync_runs cs.id ++ [freshRun st wid now] },
       freshRun st wid now)
  | none =>
    ({ st with sync_runs := st.sync_runs ++ [freshRun st wid now] }, freshRun st wid now)

/-- The completion block: `status = "completed"`, stamps
`wallet.last_synced_at` and `run.ended_at`, commits (together with the
pending balance write of a final zero-hash page). -/
def completeCommit (st : Store) (wid rid : Nat) (bal : Int) (now : Nat) : Store :=
  { wallets := st.wallets.map (fun w =>
      if w.id == wid then { w with balance_sat := bal, last_synced_at := some now }
      else w)
    transactions := st.transactions
    sync_runs := st.sync_runs.map (fun r =>
      if r.id == rid then { r with status := .completed, ended_at := some now }
      else r) }

/-- The `except Exception` handler: after `db.session.rollback()`, set
`status = "error"`, `error_message = str(exc)[:250]`, stamp `ended_at`,
commit.  The rolled-back `current_offset` is re-read from the committed
row, so it is not touched here. -/
def markError (st : Store) (rid : Nat) (msg : String) (now : Nat) : Store :=
  { st with sync_runs := st.sync_runs.map (fun r =>
      if r.id == rid then
        { r with status := .error, error_message := some (msg.take 250),
                 ended_at := some now }
      else r) }

/-- Result of one `sync_wallet` invocation.  `startOffset` records the
value of `offset = sync_run.current_offset or 0` at loop entry (the
offset at which fetching began); `fetched` the number of pages fetched.
`failed` corresponds to the re-`raise` after error marking;
`interrupted` to the process dying mid-run (fuel exhaustion). -/
inductive SyncResult
  | noWallet (st : Store)
  | completed (st : Store) (startOffset : Nat) (fetched : Nat)
  | failed (st : Store) (msg : String) (startOffset : Nat) (fetched : Nat)
  | interrupted (st : Store) (startOffset : Nat) (fetched : Nat)
deriving Repr

def SyncResult.store : SyncResult → Store
  | .noWallet st => st
  | .completed st _ _ => st
  | .failed st _ _ _ => st
  | .interrupted st _ _ => st

def SyncResult.isCompleted : SyncResult → Bool
  | .completed _ _ _ => true
  | _ => false

def SyncResult.isFailed : SyncResult → Bool
  | .failed _ _ _ _ => true
  | _ => false

/-- The offset at which the run's page loop began fetching (0 when the
wallet was missing). -/
def SyncResult.startOffset : SyncResult → Nat
  | .noWallet _ => 0
  | .completed _ o _ => o
  | .failed _ _ o _ => o
  | .interrupted _ o _ => o

/-- Number of pages successfully fetched by the invocation. -/
def SyncResult.fetched : SyncResult → Nat
  | .noWallet _ => 0
  | .completed _ _ n => n
  | .failed _ _ _ n => n
  | .interrupted _ _ n => n

/-- The re-raised exception message, when the run failed. -/
def SyncResult.failMsg : SyncResult → Option String
  | .failed _ m _ _ => some m
  | _ => none

/-- Post-processing of the loop outcome (completion block and error
handler of `sync_wallet`). -/
def finishSync (wid rid now off : Nat) : LoopOut → SyncResult
  | .finished st bal fetched => .completed (completeCommit st wid rid bal now) off fetched
  | .failed st msg fetched => .failed (markError st rid msg now) msg off fetched
  | .crashed st fetched => .interrupted st off fetched

/-- The Celery task `sync_wallet`, one invocation at (logical) time `now`
against the abstract upstream `up`, with `fuel` bounding the number of
page iterations the process survives. -/
def sync_wallet (up : Nat → PageStep) (now fuel : Nat) (st : Store)
    (wallet_id : Nat) : SyncResult :=
  match lookupWallet st wallet_id with
  | none => .noWallet st
  | some wallet =>
    let sr := startRun st wallet_id now
    finishSync wallet_id sr.2.id now sr.2.current_offset
      (syncLoop up wallet_id sr.2.id fuel sr.1 wallet.balance_sat sr.2.current_offset 0)

/-! ### Reference run functions

Closed forms for the committed state after processing a block of pages,
used to state the page-loop theorems. -/

/-- The transaction hashes of pages `j, j+1, ..., j+n-1`, in fetch order. -/
def pagesConcat (P : Nat → Payload) : Nat → Nat → List String
  | _, 0 => []
  | j, n+1 => pageTxs (P j) ++ pagesConcat P (j+1) n

/-- Committed store and in-memory balance after the loop has processed
`n` full pages starting at page index `j` (page index `i` sits at offset
`PAGE_SIZE * i`). -/
def runPages (wid rid : Nat) (P : Nat → Payload) :
    Nat → Nat → Store → Int → Store × Int
  | _, 0, st, bal => (st, bal)
  | j, n+1, st, bal =>
    runPages wid rid P (j+1) n
      (commitPage st wid rid (pageBalance (P j) bal) (PAGE_SIZE * (j+1)) (pageTxs (P j)))
      (pageBalance (P j) bal)

/-- Committed store and pending balance at loop exit, when pages
`j..j+k-1` are full and page `j+k` is the short (or empty) final page. -/
def finishState (wid rid : Nat) (P : Nat → Payload) (j k : Nat)
    (st : Store) (bal : Int) : Store × Int :=
  let r := runPages wid rid P j k st bal
  let p := P (j + k)
  let b := pageBalance p r.2
  if (pageTxs p).isEmpty then (r.1, b)
  else (commitPage r.1 wid rid b (PAGE_SIZE * (j + k + 1)) (pageTxs p), b)

/-- The natural key of a `Transaction` row. -/
def txnKeys (l : List Transaction) : List (Nat × String) :=
  l.map (fun t => (t.wallet_id, t.tx_hash))

/-- The per-wallet hash-uniqueness invariant: no two rows share
`(wallet_id, tx_hash)`. -/
def NoDupTxns (l : List Transaction) : Prop := (txnKeys l).Nodup

/-- Whether processing the page at a given offset raises an unrecoverable
error, and with which message: a fetcher exception, or a commit error on a
non-empty page (an empty page breaks out of the loop before the per-page
commit, so a commit error cannot fire there). -/
def failsAt : PageStep → Option String
  | .fetchFail msg => some msg
  | .page p cerr => if (pageTxs p).isEmpty then none else cerr

/-! ### Reachability and run-table invariants -/

/-- Number of `in_progress` runs a wallet has. -/
def inProgressCount (st : Store) (wid : Nat) : Nat :=
  st.sync_runs.countP (fun r => decide (r.wallet_id = wid ∧ r.status = SyncStatus.in_progress))

/-- Number of `is_latest` runs a wallet has. -/
def latestCount (st : Store) (wid : Nat) : Nat :=
  st.sync_runs.countP (fun r => r.wallet_id == wid && r.is_latest)

/-- Inductive invariant on a run table, at a time bound `t` (every
recorded start time is `< t`): primary keys are unique; at most one
`is_latest` row per wallet; every `in_progress` row is the latest one;
and the latest row of a wallet strictly postdates all its other rows. -/
def RunsInv (rs : List SyncRun) (t : Nat) : Prop :=
  (rs.map SyncRun.id).Nodup ∧
  (∀ r ∈ rs, r.started_at < t) ∧
  (∀ wid : Nat, rs.countP (fun r => r.wallet_id == wid && r.is_latest) ≤ 1) ∧
  (∀ r ∈ rs, r.status = SyncStatus.in_progress → r.is_latest = true) ∧
  (∀ r ∈ rs, ∀ r' ∈ rs,
      r.wallet_id = r'.wallet_id → r.is_latest = true → r'.id ≠ r.id →
      r'.started_at < r.started_at)

def StoreInv (st : Store) (t : Nat) : Prop := RunsInv st.sync_runs t

/-- Stores reachable by sequential `sync_wallet` invocations (with
strictly increasing invocation times) from a store with an empty run
table.  Each invocation may complete, fail, or be interrupted at any page
boundary (arbitrary fuel), for any wallet id and any upstream behaviour,
so every durable store state the program can produce is covered. -/
inductive Reachable : Store → Nat → Prop
  | base (st : Store) (t : Nat) : st.sync_runs = [] → Reachable st t
  | step (st : Store) (t t' : Nat) (up : Nat → PageStep) (fuel wid : Nat) :
      Reachable st t → t < t' →
      Reachable ((sync_wallet up t fuel st wid).store) t'

/-- A per-row rewrite of the run table that can only touch the row with
primary key `rid`, and even there preserves identity, wallet, start time
and the `is_latest` flag (the page loop and the final status commits only
write `current_offset`, `status`, `error_message`, `ended_at`). -/
def RunShape (rid : Nat) (φ : SyncRun → SyncRun) : Prop :=
  (∀ r, (φ r).id = r.id ∧ (φ r).wallet_id = r.wallet_id ∧
        (φ r).started_at = r.started_at ∧ (φ r).is_latest = r.is_latest) ∧
  (∀ r, r.id ≠ rid → φ r = r)

/-! ### Concrete example inputs (for witnesses and counterexamples) -/

def exWallet : Wallet := ⟨1, "bc1qexample", 777, none⟩
def exStore : Store := ⟨[exWallet], [], []⟩

/-- A single short page: balance 5, two hashes. -/
def exPagePayload : Payload := ⟨some ⟨some ⟨some 5⟩, some ["a", "b"]⟩⟩
def exPageFun : Nat → Payload := fun _ => exPagePayload
def exUpOnePage : Nat → PageStep := fun _ => .page exPagePayload none

/-- 100 distinct hashes for page index `i`. -/
def exHashes (i : Nat) : List String :=
  (List.range PAGE_SIZE).map (fun h => toString i ++ "-" ++ toString h)
def exPayloadFull (i : Nat) : Payload :=
  ⟨some ⟨some ⟨some (7 + i)⟩, some (exHashes i)⟩⟩
/-- Pages 0 and 1 full, page 2 empty (end of upstream data). -/
def exPageMix : Nat → Payload :=
  fun i => if i < 2 then exPayloadFull i else ⟨some ⟨some ⟨some 9⟩, some []⟩⟩
def exUpMix : Nat → PageStep := fun off => .page (exPageMix (off / PAGE_SIZE)) none

/-- A decoded payload missing the whole `data` section. -/
def exEmptyPayload : Payload := ⟨none⟩
def exUpMissingData : Nat → PageStep := fun _ => .page exEmptyPayload none

/-- Fetcher raises on the very first page. -/
def exUpFetchFail : Nat → PageStep := fun _ => .fetchFail "connection reset"

/-- Stores after one and two sequential syncs of wallet 1 (both complete
on the first short page). -/
def exStep1 : Store := (sync_wallet exUpOnePage 0 9 exStore 1).store
def exStep2 : Store := (sync_wallet exUpOnePage 1 9 exStep1 1).store

/-- The two `SyncRun` rows of `exStep2`: the superseded first run and the
latest second run. -/
def exRunOld : SyncRun := ⟨1, 1, 0, some 0, .completed, 100, none, false⟩
def exRunNew : SyncRun := ⟨2, 1, 1, some 1, .completed, 100, none, true⟩

/-! ### Fetcher lemmas -/

lemma rwr_step_ok (resp : Nat → HttpResponse) (p : Payload)
    (fuel attempt made : Nat) (sleeps : List Int) (h : resp made = .ok p) :
    requestRetryAux resp (fuel+1) attempt made sleeps = .success p (made+1) sleeps := by
  simp [requestRetryAux, h]

lemma rwr_step_err (resp : Nat → HttpResponse) (msg : String)
    (fuel attempt made : Nat) (sleeps : List Int)
    (h : resp made = .reqError msg) (hlt : attempt + 1 < MAX_RETRIES) :
    requestRetryAux resp (fuel+1) attempt made sleeps =
      requestRetryAux resp fuel (attempt+1) (made+1) (sleeps ++ [(2:Int)^(attempt+1)]) := by
  simp only [requestRetryAux, h]
  rw [if_neg (by omega)]

lemma rwr_step_err_last (resp : Nat → HttpResponse) (msg : String)
    (fuel attempt made : Nat) (sleeps : List Int)
    (h : resp made = .reqError msg) (hge : MAX_RETRIES ≤ attempt + 1) :
    requestRetryAux resp (fuel+1) attempt made sleeps =
      .exhausted msg (made+1) (sleeps ++ [(2:Int)^(attempt+1)]) := by
  simp only [requestRetryAux, h]
  rw [if_pos (by omega)]

lemma rwr_step_429 (resp : Nat → HttpResponse) (hdr : Option String) (v : Int)
    (fuel attempt made : Nat) (sleeps : List Int)
    (h : resp made = .rateLimited hdr) (hv : retryAfterSeconds hdr = some v) :
    requestRetryAux resp (fuel+1) attempt made sleeps =
      requestRetryAux resp fuel (attempt+1) (made+1) (sleeps ++ [v]) := by
  simp [requestRetryAux, h, hv]

lemma rwr_step_429_crash (resp : Nat → HttpResponse) (hdr : Option String)
    (fuel attempt made : Nat) (sleeps : List Int)
    (h : resp made = .rateLimited hdr) (hv : retryAfterSeconds hdr = none) :
    requestRetryAux resp (fuel+1) attempt made sleeps = .parseCrash (made+1) sleeps := by
  simp [requestRetryAux, h, hv]

lemma rwr_requests_le (resp : Nat → HttpResponse) :
    ∀ (fuel attempt made : Nat) (sleeps : List Int),
      (requestRetryAux resp fuel attempt made sleeps).requests ≤ made + fuel := by
  intro fuel
  induction fuel with
  | zero => intro attempt made sleeps; simp [requestRetryAux, FetchResult.requests]
  | succ fuel ih =>
    intro attempt made sleeps
    cases hr : resp made with
    | ok p =>
      rw [rwr_step_ok resp p fuel attempt made sleeps hr]
      simp only [FetchResult.requests]; omega
    | rateLimited hdr =>
      cases hv : retryAfterSeconds hdr with
      | none =>
        rw [rwr_step_429_crash resp hdr fuel attempt made sleeps hr hv]
        simp only [FetchResult.requests]; omega
      | some v =>
        rw [rwr_step_429 resp hdr v fuel attempt made sleeps hr hv]
        calc (requestRetryAux resp fuel (attempt+1) (made+1) (sleeps ++ [v])).requests
            ≤ (made+1) + fuel := ih (attempt+1) (made+1) (sleeps ++ [v])
          _ ≤ made + (fuel+1) := by omega
    | reqError msg =>
      by_cases hge : MAX_RETRIES ≤ attempt + 1
      · rw [rwr_step_err_last resp msg fuel attempt made sleeps hr hge]
        simp only [FetchResult.requests]; omega
      · rw [rwr_step_err resp msg fuel attempt made sleeps hr (by omega)]
        calc (requestRetryAux resp fuel (attempt+1) (made+1) _).requests
            ≤ (made+1) + fuel := ih (attempt+1) (made+1) _
          _ ≤ made + (fuel+1) := by omega

lemma rwr_all_errors (resp : Nat → HttpResponse) (m : Nat → String)
    (h : ∀ i, i < MAX_RETRIES → resp i = .reqError (m i)) :
    request_with_retry resp = .exhausted (m 4) 5 [2, 4, 8, 16, 32] := by
  have e0 := h 0 (by decide)
  have e1 := h 1 (by decide)
  have e2 := h 2 (by decide)
  have e3 := h 3 (by decide)
  have e4 := h 4 (by decide)
  calc request_with_retry resp
      = requestRetryAux resp (4+1) 0 0 [] := rfl
    _ = requestRetryAux resp (3+1) 1 1 ([] ++ [(2:Int)^(0+1)]) :=
        rwr_step_err resp (m 0) 4 0 0 [] e0 (by norm_num [MAX_RETRIES])
    _ = requestRetryAux resp (2+1) 2 2 (([] ++ [(2:Int)^(0+1)]) ++ [(2:Int)^(1+1)]) :=
        rwr_step_err resp (m 1) 3 1 1 _ e1 (by norm_num [MAX_RETRIES])
    _ = requestRetryAux resp (1+1) 3 3 _ :=
        rwr_step_err resp (m 2) 2 2 2 _ e2 (by norm_num [MAX_RETRIES])
    _ = requestRetryAux resp (0+1) 4 4 _ :=
        rwr_step_err resp (m 3) 1 3 3 _ e3 (by norm_num [MAX_RETRIES])
    _ = .exhausted (m 4) 5 ((((([] ++ [(2:Int)^(0+1)]) ++ [(2:Int)^(1+1)]) ++ [(2:Int)^(2+1)]) ++ [(2:Int)^(3+1)]) ++ [(2:Int)^(4+1)]) :=
        rwr_step_err_last resp (m 4) 0 4 4 _ e4 (by norm_num [MAX_RETRIES])
    _ = .exhausted (m 4) 5 [2, 4, 8, 16, 32] := by norm_num

lemma rwr_all_rate_limited (resp : Nat → HttpResponse)
    (h : ∀ i, i < MAX_RETRIES → resp i = .rateLimited (some "1")) :
    request_with_retry resp = .unreachable 5 [1, 1, 1, 1, 1] := by
  have hv : retryAfterSeconds (some "1") = some 1 := by decide
  have e0 := h 0 (by decide)
  have e1 := h 1 (by decide)
  have e2 := h 2 (by decide)
  have e3 := h 3 (by decide)
  have e4 := h 4 (by decide)
  calc request_with_retry resp
      = requestRetryAux resp (4+1) 0 0 [] := rfl
    _ = requestRetryAux resp (3+1) 1 1 ([] ++ [(1:Int)]) :=
        rwr_step_429 resp (some "1") 1 4 0 0 [] e0 hv
    _ = requestRetryAux resp (2+1) 2 2 (([] ++ [(1:Int)]) ++ [(1:Int)]) :=
        rwr_step_429 resp (some "1") 1 3 1 1 _ e1 hv
    _ = requestRetryAux resp (1+1) 3 3 _ :=
        rwr_step_429 resp (some "1") 1 2 2 2 _ e2 hv
    _ = requestRetryAux resp (0+1) 4 4 _ :=
        rwr_step_429 resp (some "1") 1 1 3 3 _ e3 hv
    _ = requestRetryAux resp 0 5 5 _ :=
        rwr_step_429 resp (some "1") 1 0 4 4 _ e4 hv
    _ = .unreachable 5 (((((([] ++ [(1:Int)]) ++ [(1:Int)]) ++ [(1:Int)]) ++ [(1:Int)]) ++ [(1:Int)])) := rfl
    _ = .unreachable 5 [1, 1, 1, 1, 1] := by norm_num

/-- Claim C3: the fetcher issues at most 5 HTTP attempts per page before
surfacing a terminal failure; with no 429 responses (all five attempts
failing with transport errors) the backoff sleeps before the fifth and
final attempt total exactly 2+4+8+16 = 30 seconds; and 429 responses
consume the same shared attempt budget (five 429s exhaust the loop with no
further request). -/
theorem fetcher_attempt_budget :
    (∀ resp : Nat → HttpResponse,
        (request_with_retry resp).requests ≤ MAX_RETRIES) ∧
    (∀ (resp : Nat → HttpResponse) (m : Nat → String),
        (∀ i, i < MAX_RETRIES → resp i = .reqError (m i)) →
        request_with_retry resp = .exhausted (m 4) 5 [2, 4, 8, 16, 32] ∧
        (([2, 4, 8, 16, 32] : List Int).take 4).sum = 2 + 4 + 8 + 16 ∧
        ((2 : Int) + 4 + 8 + 16 = 30)) ∧
    (∀ resp : Nat → HttpResponse,
        (∀ i, i < MAX_RETRIES → resp i = .rateLimited (some "1")) →
        request_with_retry resp = .unreachable 5 [1, 1, 1, 1, 1]) := by
  refine ⟨fun resp => ?_, fun resp m h => ⟨rwr_all_errors resp m h, by decide, by decide⟩,
    fun resp h => rwr_all_rate_limited resp h⟩
  have := rwr_requests_le resp MAX_RETRIES 0 0 []
  simpa [request_with_retry] using this

theorem fetcher_attempt_budget_witness :
    request_with_retry (fun _ => .reqError "boom") =
      .exhausted "boom" 5 [2, 4, 8, 16, 32] :=
  (fetcher_attempt_budget.2.1 (fun _ => .reqError "boom") (fun _ => "boom")
    (fun _ _ => rfl)).1

lemma rwr_crash_of_bad_retry_after (resp : Nat → HttpResponse) (m : Nat → String)
    (s : String) (hs : pyIntParse s = none) :
    ∀ (k fuel attempt made : Nat) (sleeps : List Int),
      attempt + fuel = MAX_RETRIES → k < fuel →
      (∀ i, i < k → resp (made + i) = .reqError (m (made + i))) →
      resp (made + k) = .rateLimited (some s) →
      requestRetryAux resp fuel attempt made sleeps =
        .parseCrash (made + k + 1)
          (sleeps ++ (List.range k).map (fun i => (2:Int)^(attempt + 1 + i))) := by
  intro k
  induction k with
  | zero =>
    intro fuel attempt made sleeps hf hk hprev h429
    obtain ⟨f, rfl⟩ : ∃ f, fuel = f + 1 := ⟨fuel - 1, by omega⟩
    rw [rwr_step_429_crash resp (some s) f attempt made sleeps (by simpa using h429)
          (by simp [retryAfterSeconds, hs])]
    simp
  | succ k ih =>
    intro fuel attempt made sleeps hf hk hprev h429
    obtain ⟨f, rfl⟩ : ∃ f, fuel = f + 1 := ⟨fuel - 1, by omega⟩
    rw [rwr_step_err resp (m made) f attempt made sleeps
          (by simpa using hprev 0 (by omega)) (by omega)]
    rw [ih f (attempt+1) (made+1) (sleeps ++ [(2:Int)^(attempt+1)]) (by omega) (by omega)
          (fun i hi => by
            have := hprev (i+1) (by omega)
            simpa [Nat.add_assoc, Nat.add_comm 1 i] using this)
          (by
            have : made + 1 + k = made + (k+1) := by omega
            rw [this]; exact h429)]
    have hoff : made + 1 + k + 1 = made + (k + 1) + 1 := by omega
    rw [hoff, List.append_assoc]
    congr 2
    rw [List.range_succ_eq_map, List.map_cons, List.map_map]
    have hfun : ((fun i => (2:Int)^(attempt + 1 + i)) ∘ Nat.succ) =
        fun i => (2:Int)^(attempt + 1 + 1 + i) := by
      funext i
      simp only [Function.comp]
      congr 1
      omega
    rw [hfun]
    simp

/-- Claim C10: a 429 response whose `Retry-After` header does not parse as
a decimal integer makes `int(...)` raise an exception that the
`requests.RequestException` handler does not catch: the fetch crashes
immediately on that response (request count k+1, terminal), with no
backoff sleep added for it and with the remaining retry budget unused. -/
theorem retry_after_parse_crash (resp : Nat → HttpResponse) (m : Nat → String)
    (k : Nat) (s : String) (hk : k < MAX_RETRIES)
    (hprev : ∀ i, i < k → resp i = .reqError (m i))
    (h429 : resp k = .rateLimited (some s)) (hbad : pyIntParse s = none) :
    request_with_retry resp =
      .parseCrash (k + 1) ((List.range k).map (fun i => (2:Int)^(i + 1))) := by
  have h := rwr_crash_of_bad_retry_after resp m s hbad k MAX_RETRIES 0 0 []
    (by omega) hk (by simpa using hprev) (by simpa using h429)
  have hfun : (fun i => (2:Int)^(0 + 1 + i)) = fun i => (2:Int)^(i + 1) := by
    funext i; congr 1; omega
  simpa [request_with_retry, hfun] using h

theorem retry_after_parse_crash_witness :
    request_with_retry (fun _ => .rateLimited (some "2.5")) = .parseCrash 1 [] := by
  simpa using retry_after_parse_crash (fun _ => .rateLimited (some "2.5"))
    (fun _ => "x") 0 "2.5" (by norm_num [MAX_RETRIES])
    (fun i hi => absurd hi (by omega)) rfl (by decide)

/-! ### Page-loop lemmas -/

lemma pageTxs_not_isEmpty_of_full {p : Payload} (hfull : PAGE_SIZE ≤ (pageTxs p).length) :
    (pageTxs p).isEmpty = false := by
  cases h : pageTxs p with
  | nil => rw [h] at hfull; simp [PAGE_SIZE] at hfull
  | cons a l => simp

lemma syncLoop_full_step (up : Nat → PageStep) (wid rid : Nat) (p : Payload)
    (fuel : Nat) (st : Store) (bal : Int) (off f : Nat)
    (hp : up off = .page p none) (hfull : PAGE_SIZE ≤ (pageTxs p).length) :
    syncLoop up wid rid (fuel+1) st bal off f =
      syncLoop up wid rid fuel
        (commitPage st wid rid (pageBalance p bal) (off + PAGE_SIZE) (pageTxs p))
        (pageBalance p bal) (off + PAGE_SIZE) (f+1) := by
  simp [syncLoop, hp, pageTxs_not_isEmpty_of_full hfull, Nat.not_lt.mpr hfull]

lemma syncLoop_finish_step (up : Nat → PageStep) (wid rid : Nat) (p : Payload)
    (fuel : Nat) (st : Store) (bal : Int) (off f : Nat)
    (hp : up off = .page p none) (hshort : (pageTxs p).length < PAGE_SIZE) :
    syncLoop up wid rid (fuel+1) st bal off f =
      .finished
        (if (pageTxs p).isEmpty then st
         else commitPage st wid rid (pageBalance p bal) (off + PAGE_SIZE) (pageTxs p))
        (pageBalance p bal) (f+1) := by
  by_cases he : (pageTxs p).isEmpty
  · simp [syncLoop, hp, he]
  · simp [syncLoop, hp, he, hshort]

lemma syncLoop_fail_step (up : Nat → PageStep) (wid rid : Nat) (msg : String)
    (fuel : Nat) (st : Store) (bal : Int) (off f : Nat)
    (hfail : failsAt (up off) = some msg) :
    ∃ f2, syncLoop up wid rid (fuel+1) st bal off f = .failed st msg f2 := by
  cases hstep : up off with
  | fetchFail m2 =>
    have hm : m2 = msg := by simpa [failsAt, hstep] using hfail
    exact ⟨f, by simp [syncLoop, hstep, hm]⟩
  | page p cerr =>
    rw [hstep] at hfail
    by_cases he : (pageTxs p).isEmpty
    · simp [failsAt, he] at hfail
    · have hc : cerr = some msg := by simpa [failsAt, he] using hfail
      exact ⟨f+1, by simp [syncLoop, hstep, he, hc]⟩

lemma syncLoop_advance (up : Nat → PageStep) (wid rid : Nat) (P : Nat → Payload) :
    ∀ (n j : Nat) (st : Store) (bal : Int) (f fuel : Nat),
      (∀ i, i < n → up (PAGE_SIZE * (j+i)) = .page (P (j+i)) none) →
      (∀ i, i < n → PAGE_SIZE ≤ (pageTxs (P (j+i))).length) →
      syncLoop up wid rid (n+fuel) st bal (PAGE_SIZE * j) f =
        syncLoop up wid rid fuel (runPages wid rid P j n st bal).1
          (runPages wid rid P j n st bal).2 (PAGE_SIZE * (j+n)) (f+n) := by
  intro n
  induction n with
  | zero => intro j st bal f fuel _ _; simp [runPages]
  | succ n ih =>
    intro j st bal f fuel hup hfull
    have h0 : up (PAGE_SIZE * j) = .page (P j) none := by simpa using hup 0 (by omega)
    have hf0 : PAGE_SIZE ≤ (pageTxs (P j)).length := by simpa using hfull 0 (by omega)
    have hstep := syncLoop_full_step up wid rid (P j) (n+fuel) st bal (PAGE_SIZE * j) f h0 hf0
    rw [show n+1+fuel = (n+fuel)+1 from by omega, hstep,
        show PAGE_SIZE * j + PAGE_SIZE = PAGE_SIZE * (j+1) from by ring]
    have hrec := ih (j+1)
      (commitPage st wid rid (pageBalance (P j) bal) (PAGE_SIZE * (j+1)) (pageTxs (P j)))
      (pageBalance (P j) bal) (f+1) fuel
      (fun i hi => by
        have := hup (i+1) (by omega)
        simpa [show j+(i+1) = j+1+i from by omega] using this)
      (fun i hi => by
        have := hfull (i+1) (by omega)
        simpa [show j+(i+1) = j+1+i from by omega] using this)
    rw [hrec]
    have hj : j + 1 + n = j + (n+1) := by omega
    have hfn : f + 1 + n = f + (n+1) := by omega
    rw [hj, hfn]
    rfl

lemma syncLoop_crashes (up : Nat → PageStep) (wid rid : Nat) (P : Nat → Payload)
    (n j : Nat) (st : Store) (bal : Int) (f : Nat)
    (hup : ∀ i, i < n → up (PAGE_SIZE * (j+i)) = .page (P (j+i)) none)
    (hfull : ∀ i, i < n → PAGE_SIZE ≤ (pageTxs (P (j+i))).length) :
    syncLoop up wid rid n st bal (PAGE_SIZE * j) f =
      .crashed (runPages wid rid P j n st bal).1 (f+n) := by
  have := syncLoop_advance up wid rid P n j st bal f 0 hup hfull
  rw [show n+0 = n from by omega] at this
  rw [this]
  rfl

lemma syncLoop_finishes (up : Nat → PageStep) (wid rid : Nat) (P : Nat → Payload)
    (k j : Nat) (st : Store) (bal : Int) (f m : Nat)
    (hup : ∀ i, i ≤ k → up (PAGE_SIZE * (j+i)) = .page (P (j+i)) none)
    (hfull : ∀ i, i < k → PAGE_SIZE ≤ (pageTxs (P (j+i))).length)
    (hshort : (pageTxs (P (j+k))).length < PAGE_SIZE) :
    syncLoop up wid rid (k+(m+1)) st bal (PAGE_SIZE * j) f =
      .finished (finishState wid rid P j k st bal).1
        (finishState wid rid P j k st bal).2 (f+(k+1)) := by
  rw [syncLoop_advance up wid rid P k j st bal f (m+1)
        (fun i hi => hup i (Nat.le_of_lt hi)) hfull]
  rw [syncLoop_finish_step up wid rid (P (j+k)) m _ _ _ _ (hup k le_rfl) hshort]
  show _ = .finished (finishState wid rid P j k st bal).1 (finishState wid rid P j k st bal).2 _
  rw [finishState]
  by_cases he : (pageTxs (P (j+k))).isEmpty
  · simp only [he, if_true]
    congr 1
  · simp only [he, if_false, Bool.false_eq_true]
    rw [show PAGE_SIZE * (j+k) + PAGE_SIZE = PAGE_SIZE * (j+k+1) from by ring]
    congr 1

/-! ### Lookup and store-structure lemmas -/

lemma find?_append_right {α : Type} {p : α → Bool} (A B : List α)
    (h : ∀ x ∈ A, ¬ p x) : (A ++ B).find? p = B.find? p := by
  rw [List.find?_append, List.find?_eq_none.mpr h, Option.none_or]

lemma insertTxns_append (T : List Transaction) (wid : Nat) (a b : List String) :
    insertTxns T wid (a ++ b) = insertTxns (insertTxns T wid a) wid b := by
  simp [insertTxns, List.foldl_append]

lemma latestRunFor_none (st : Store) (wid : Nat)
    (h2 : ∀ r ∈ st.sync_runs, r.wallet_id ≠ wid) : latestRunFor st wid = none := by
  apply List.find?_eq_none.mpr
  intro r hr
  simp [h2 r hr]

lemma sync_wallet_fresh (up : Nat → PageStep) (now fuel : Nat) (st : Store)
    (wid : Nat) (w : Wallet)
    (h1 : lookupWallet st wid = some w)
    (h2 : ∀ r ∈ st.sync_runs, r.wallet_id ≠ wid) :
    sync_wallet up now fuel st wid =
      finishSync wid (nextRunId st) now 0
        (syncLoop up wid (nextRunId st) fuel
          { st with sync_runs := st.sync_runs ++ [freshRun st wid now] }
          w.balance_sat 0 0) := by
  simp [sync_wallet, h1, startRun, latestRunFor_none st wid h2, freshRun]

lemma sync_wallet_resume (up : Nat → PageStep) (now fuel : Nat) (st : Store)
    (wid : Nat) (w : Wallet) (r : SyncRun)
    (hw : lookupWallet st wid = some w)
    (hr : latestRunFor st wid = some r) (hip : r.status = .in_progress) :
    sync_wallet up now fuel st wid =
      finishSync wid r.id now r.current_offset
        (syncLoop up wid r.id fuel st w.balance_sat r.current_offset 0) := by
  simp [sync_wallet, hw, startRun, hr, hip]

lemma le_foldr_max (l : List Nat) : ∀ a ∈ l, a ≤ l.foldr max 0 := by
  induction l with
  | nil => simp
  | cons b l ih =>
    intro a ha
    rcases List.mem_cons.mp ha with h | h
    · subst h; exact le_max_left _ _
    · exact le_trans (ih a h) (le_max_right _ _)

lemma nextRunId_fresh (st : Store) : ∀ r ∈ st.sync_runs, r.id ≠ nextRunId st := by
  intro r hr
  have : r.id ≤ (st.sync_runs.map SyncRun.id).foldr max 0 :=
    le_foldr_max _ _ (List.mem_map_of_mem SyncRun.id hr)
  rw [nextRunId]
  omega

lemma updRun_frozen (rs : List SyncRun) (rid : Nat) (g : SyncRun → SyncRun)
    (h : ∀ x ∈ rs, x.id ≠ rid) :
    rs.map (fun r => if r.id == rid then g r else r) = rs := by
  induction rs with
  | nil => rfl
  | cons a l ih =>
    simp only [List.map_cons]
    rw [if_neg (by simp [h a (List.mem_cons_self a l)]),
        ih (fun x hx => h x (List.mem_cons_of_mem a hx))]

lemma lookupRun_updRun (rs : List SyncRun) (rid : Nat) (g : SyncRun → SyncRun)
    (hg : ∀ r, (g r).id = r.id) :
    (rs.map (fun r => if r.id == rid then g r else r)).find? (fun r => r.id == rid) =
      (rs.find? (fun r => r.id == rid)).map g := by
  rw [List.find?_map]
  have hpf : ((fun r : SyncRun => r.id == rid) ∘
      (fun r => if r.id == rid then g r else r)) = fun r : SyncRun => r.id == rid := by
    funext r
    by_cases h : r.id == rid <;> simp [Function.comp, h, hg]
  rw [hpf]
  cases hfind : rs.find? (fun r => r.id == rid) with
  | none => rfl
  | some r =>
    have hp := List.find?_some hfind
    show some (if r.id == rid then g r else r) = some (g r)
    rw [if_pos hp]

lemma lookupWallet_updWallet (ws : List Wallet) (wid : Nat) (g : Wallet → Wallet)
    (hg : ∀ w, (g w).id = w.id) :
    (ws.map (fun w => if w.id == wid then g w else w)).find? (fun w => w.id == wid) =
      (ws.find? (fun w => w.id == wid)).map g := by
  rw [List.find?_map]
  have hpf : ((fun w : Wallet => w.id == wid) ∘
      (fun w => if w.id == wid then g w else w)) = fun w : Wallet => w.id == wid := by
    funext w
    by_cases h : w.id == wid <;> simp [Function.comp, h, hg]
  rw [hpf]
  cases hfind : ws.find? (fun w => w.id == wid) with
  | none => rfl
  | some w =>
    have hp := List.find?_some hfind
    show some (if w.id == wid then g w else w) = some (g w)
    rw [if_pos hp]

lemma lookupWallet_commitPage (st : Store) (wid rid : Nat) (bal : Int)
    (off : Nat) (hs : List String) :
    lookupWallet (commitPage st wid rid bal off hs) wid =
      (lookupWallet st wid).map (fun w => { w with balance_sat := bal }) := by
  show (setWalletBalance st.wallets wid bal).find? _ = _
  rw [setWalletBalance]
  exact lookupWallet_updWallet st.wallets wid _ (fun w => rfl)

lemma lookupWallet_runPages (wid rid : Nat) (P : Nat → Payload) :
    ∀ (n j : Nat) (st : Store) (bal : Int) (w : Wallet),
      lookupWallet st wid = some w →
      ∃ x, lookupWallet (runPages wid rid P j n st bal).1 wid =
        some { w with balance_sat := x } := by
  intro n
  induction n with
  | zero =>
    intro j st bal w hw
    exact ⟨w.balance_sat, hw⟩
  | succ n ih =>
    intro j st bal w hw
    have hc : lookupWallet
        (commitPage st wid rid (pageBalance (P j) bal) (PAGE_SIZE * (j+1)) (pageTxs (P j)))
        wid = some { w with balance_sat := pageBalance (P j) bal } := by
      rw [lookupWallet_commitPage, hw]
      rfl
    obtain ⟨x, hx⟩ := ih (j+1) _ (pageBalance (P j) bal)
      { w with balance_sat := pageBalance (P j) bal } hc
    exact ⟨x, hx⟩

lemma runPages_runs_fresh (wid rid : Nat) (P : Nat → Payload) :
    ∀ (n j : Nat) (A : List SyncRun) (r : SyncRun) (st : Store) (bal : Int),
      st.sync_runs = A ++ [r] →
      (∀ x ∈ A, x.id ≠ rid) → r.id = rid → r.current_offset = PAGE_SIZE * j →
      (runPages wid rid P j n st bal).1.sync_runs =
        A ++ [{ r with current_offset := PAGE_SIZE * (j+n) }] := by
  intro n
  induction n with
  | zero =>
    intro j A r st bal hst hA hr hoff
    show st.sync_runs = _
    rw [hst, show PAGE_SIZE * (j+0) = PAGE_SIZE * j from by ring, ← hoff]
  | succ n ih =>
    intro j A r st bal hst hA hr hoff
    have hcommit : (commitPage st wid rid (pageBalance (P j) bal)
        (PAGE_SIZE * (j+1)) (pageTxs (P j))).sync_runs =
        A ++ [{ r with current_offset := PAGE_SIZE * (j+1) }] := by
      show setRunOffset st.sync_runs rid (PAGE_SIZE * (j+1)) = _
      rw [setRunOffset, hst, List.map_append, updRun_frozen A rid _ hA]
      simp [hr]
    have := ih (j+1) A { r with current_offset := PAGE_SIZE * (j+1) }
      (commitPage st wid rid (pageBalance (P j) bal) (PAGE_SIZE * (j+1)) (pageTxs (P j)))
      (pageBalance (P j) bal) hcommit hA hr rfl
    rw [runPages, this, show j+1+n = j+(n+1) from by omega]

lemma runPages_transactions (wid rid : Nat) (P : Nat → Payload) :
    ∀ (n j : Nat) (st : Store) (bal : Int),
      (runPages wid rid P j n st bal).1.transactions =
        insertTxns st.transactions wid (pagesConcat P j n) := by
  intro n
  induction n with
  | zero =>
    intro j st bal
    show st.transactions = insertTxns st.transactions wid []
    rfl
  | succ n ih =>
    intro j st bal
    rw [runPages, ih (j+1)]
    show insertTxns (insertTxns st.transactions wid (pageTxs (P j))) wid _ = _
    rw [← insertTxns_append]
    rfl

/-! ### finishState structure lemmas -/

lemma pageBalance_of_field {p : Payload} {b : Int} (hb : balanceField p = some b)
    (cur : Int) : pageBalance p cur = b := by
  rw [show pageBalance p cur = (balanceField p).getD cur from rfl, hb]
  rfl

lemma finishState_balance (wid rid : Nat) (P : Nat → Payload) (j k : Nat)
    (st : Store) (bal : Int) :
    (finishState wid rid P j k st bal).2 =
      pageBalance (P (j+k)) (runPages wid rid P j k st bal).2 := by
  rw [finishState]
  by_cases he : (pageTxs (P (j+k))).isEmpty <;> simp [he]

lemma finishState_transactions (wid rid : Nat) (P : Nat → Payload) (j k : Nat)
    (st : Store) (bal : Int) :
    (finishState wid rid P j k st bal).1.transactions =
      insertTxns st.transactions wid (pagesConcat P j k ++ pageTxs (P (j+k))) := by
  rw [finishState]
  by_cases he : (pageTxs (P (j+k))).isEmpty
  · simp only [he, if_true]
    rw [runPages_transactions, List.isEmpty_iff.mp he, List.append_nil]
  · simp only [he, Bool.false_eq_true, if_false]
    show insertTxns (runPages wid rid P j k st bal).1.transactions wid (pageTxs (P (j+k))) = _
    rw [runPages_transactions, ← insertTxns_append]

lemma finishState_runs_fresh (wid rid : Nat) (P : Nat → Payload) (j k : Nat)
    (A : List SyncRun) (r : SyncRun) (st : Store) (bal : Int)
    (hst : st.sync_runs = A ++ [r]) (hA : ∀ x ∈ A, x.id ≠ rid)
    (hr : r.id = rid) (hoff : r.current_offset = PAGE_SIZE * j) :
    (finishState wid rid P j k st bal).1.sync_runs =
      A ++ [{ r with current_offset :=
        if (pageTxs (P (j+k))).isEmpty then PAGE_SIZE * (j+k)
        else PAGE_SIZE * (j+k+1) }] := by
  have hrp := runPages_runs_fresh wid rid P k j A r st bal hst hA hr hoff
  rw [finishState]
  by_cases he : (pageTxs (P (j+k))).isEmpty
  · simp only [he, if_true]
    exact hrp
  · simp only [he, Bool.false_eq_true, if_false]
    show setRunOffset (runPages wid rid P j k st bal).1.sync_runs rid (PAGE_SIZE * (j+k+1)) = _
    rw [hrp, setRunOffset, List.map_append, updRun_frozen A rid _ hA]
    simp [hr]

lemma finishSync_transactions (wid rid now off : Nat) (lo : LoopOut) :
    ((finishSync wid rid now off lo).store).transactions = (lo.store).transactions := by
  cases lo <;> rfl

lemma startRun_transactions (st : Store) (wid now : Nat) :
    (startRun st wid now).1.transactions = st.transactions := by
  rw [startRun]
  cases latestRunFor st wid with
  | none => rfl
  | some cs =>
    by_cases h : cs.status = .in_progress
    · simp [h]
    · simp [h]

lemma startRun_wallets (st : Store) (wid now : Nat) :
    (startRun st wid now).1.wallets = st.wallets := by
  rw [startRun]
  cases latestRunFor st wid with
  | none => rfl
  | some cs =>
    by_cases h : cs.status = .in_progress
    · simp [h]
    · simp [h]

/-! ### Claim C9: loop termination -/

/-- Claim C9: the page loop terminates in finitely many iterations
whenever the upstream eventually returns a page with zero hashes or fewer
than `PAGE_SIZE` hashes: if pages `j..j+k-1` are full and page `j+k` is
the first short (possibly empty) page, then with any surviving fuel of at
least `k+1` iterations the loop exits normally having fetched exactly the
`k+1` pages `j..j+k` — it stops exactly on the short page. -/
theorem page_loop_terminates (up : Nat → PageStep) (wid rid : Nat)
    (P : Nat → Payload) (k j : Nat) (st : Store) (bal : Int) (f m : Nat)
    (hup : ∀ i, i ≤ k → up (PAGE_SIZE * (j+i)) = .page (P (j+i)) none)
    (hfull : ∀ i, i < k → PAGE_SIZE ≤ (pageTxs (P (j+i))).length)
    (hshort : (pageTxs (P (j+k))).length < PAGE_SIZE) :
    syncLoop up wid rid (k+(m+1)) st bal (PAGE_SIZE * j) f =
      .finished (finishState wid rid P j k st bal).1
        (finishState wid rid P j k st bal).2 (f+(k+1)) :=
  syncLoop_finishes up wid rid P k j st bal f m hup hfull hshort

theorem page_loop_terminates_witness :
    syncLoop exUpOnePage 1 1 1 exStore 777 (PAGE_SIZE * 0) 0 =
      .finished (finishState 1 1 exPageFun 0 0 exStore 777).1
        (finishState 1 1 exPageFun 0 0 exStore 777).2 1 :=
  page_loop_terminates exUpOnePage 1 1 exPageFun 0 0 exStore 777 0 0
    (fun _ _ => rfl) (fun i hi => absurd hi (by omega)) (by decide)

/-! ### Claim C2: idempotent insert, no duplicate (wallet, hash) rows -/

lemma txnExists_iff (T : List Transaction) (wid : Nat) (a : String) :
    txnExists T wid a = true ↔ (wid, a) ∈ txnKeys T := by
  simp only [txnExists, txnKeys, List.any_eq_true, List.mem_map,
    Bool.and_eq_true, beq_iff_eq]
  constructor
  · rintro ⟨t, ht, h1, h2⟩
    exact ⟨t, ht, by rw [h1, h2]⟩
  · rintro ⟨t, ht, hkey⟩
    have h1 : t.wallet_id = wid := congrArg Prod.fst hkey
    have h2 : t.tx_hash = a := congrArg Prod.snd hkey
    exact ⟨t, ht, h1, h2⟩

lemma insertTxns_nodup (wid : Nat) :
    ∀ (hs : List String) (T : List Transaction),
      NoDupTxns T → NoDupTxns (insertTxns T wid hs) := by
  intro hs
  induction hs with
  | nil => intro T h; exact h
  | cons a l ih =>
    intro T h
    show NoDupTxns (insertTxns (if txnExists T wid a then T else T ++ [⟨wid, a⟩]) wid l)
    by_cases he : txnExists T wid a
    · rw [if_pos he]; exact ih T h
    · rw [if_neg he]
      apply ih
      show (txnKeys (T ++ [⟨wid, a⟩])).Nodup
      rw [show txnKeys (T ++ [⟨wid, a⟩]) = txnKeys T ++ [(wid, a)] from by
        simp [txnKeys]]
      rw [List.nodup_append]
      refine ⟨h, List.nodup_singleton _, ?_⟩
      intro x hx hx'
      have hxa : x = (wid, a) := List.mem_singleton.mp hx'
      subst hxa
      exact he ((txnExists_iff T wid a).mpr hx)

lemma syncLoop_nodup (up : Nat → PageStep) (wid rid : Nat) :
    ∀ (fuel : Nat) (st : Store) (bal : Int) (off f : Nat),
      NoDupTxns st.transactions →
      NoDupTxns ((syncLoop up wid rid fuel st bal off f).store).transactions := by
  intro fuel
  induction fuel with
  | zero => intro st bal off f h; exact h
  | succ fuel ih =>
    intro st bal off f h
    cases hstep : up off with
    | fetchFail msg => simpa [syncLoop, hstep, LoopOut.store] using h
    | page p cerr =>
      by_cases he : (pageTxs p).isEmpty
      · simpa [syncLoop, hstep, he, LoopOut.store] using h
      · cases cerr with
        | some msg => simpa [syncLoop, hstep, he, LoopOut.store] using h
        | none =>
          have hcommit : NoDupTxns (commitPage st wid rid (pageBalance p bal)
              (off + PAGE_SIZE) (pageTxs p)).transactions :=
            insertTxns_nodup wid (pageTxs p) st.transactions h
          by_cases hlen : (pageTxs p).length < PAGE_SIZE
          · simpa [syncLoop, hstep, he, hlen, LoopOut.store] using hcommit
          · have h2 := ih (commitPage st wid rid (pageBalance p bal)
              (off + PAGE_SIZE) (pageTxs p)) (pageBalance p bal) (off + PAGE_SIZE)
              (f+1) hcommit
            simpa [syncLoop, hstep, he, hlen, LoopOut.store] using h2

lemma sync_wallet_nodup (up : Nat → PageStep) (now fuel : Nat) (st : Store)
    (wid : Nat) (h : NoDupTxns st.transactions) :
    NoDupTxns ((sync_wallet up now fuel st wid).store).transactions := by
  rw [sync_wallet]
  cases hw : lookupWallet st wid with
  | none => exact h
  | some w =>
    show NoDupTxns ((finishSync wid (startRun st wid now).2.id now
        (startRun st wid now).2.current_offset
        (syncLoop up wid (startRun st wid now).2.id fuel (startRun st wid now).1
          w.balance_sat (startRun st wid now).2.current_offset 0)).store).transactions
    rw [finishSync_transactions]
    apply syncLoop_nodup
    rw [show (startRun st wid now).1.transactions = st.transactions from
      startRun_transactions st wid now]
    exact h

/-- Claim C2: a `Transaction` row is inserted only if no row with that
`(wallet, hash)` pair already exists (first conjunct: an existing pair
makes the insert a no-op), so any two consecutive `sync_wallet` passes —
in particular two passes over identical upstream data — preserve the
per-wallet hash-uniqueness invariant (second conjunct). -/
theorem sync_preserves_txn_uniqueness
    (up1 up2 : Nat → PageStep) (now1 now2 fuel1 fuel2 : Nat) (st : Store)
    (wid1 wid2 : Nat) (h : NoDupTxns st.transactions) :
    (∀ (T : List Transaction) (wid : Nat) (a : String) (hs : List String),
        txnExists T wid a = true →
        insertTxns T wid (a :: hs) = insertTxns T wid hs) ∧
    NoDupTxns ((sync_wallet up2 now2 fuel2
        ((sync_wallet up1 now1 fuel1 st wid1).store) wid2).store).transactions := by
  constructor
  · intro T wid a hs he
    show insertTxns (if txnExists T wid a then T else T ++ [⟨wid, a⟩]) wid hs = _
    rw [if_pos he]
  · exact sync_wallet_nodup up2 now2 fuel2 _ wid2
      (sync_wallet_nodup up1 now1 fuel1 st wid1 h)

theorem sync_preserves_txn_uniqueness_witness :
    NoDupTxns ((sync_wallet exUpOnePage 4 9
        ((sync_wallet exUpOnePage 3 9 exStore 1).store) 1).store).transactions :=
  (sync_preserves_txn_uniqueness exUpOnePage exUpOnePage 3 4 9 9 exStore 1 1
    List.nodup_nil).2

/-! ### Completion and error-marking lookups -/

lemma lookupWallet_completeCommit (st : Store) (wid rid : Nat) (bal : Int)
    (now : Nat) :
    lookupWallet (completeCommit st wid rid bal now) wid =
      (lookupWallet st wid).map
        (fun w => { w with balance_sat := bal, last_synced_at := some now }) := by
  show (st.wallets.map _).find? _ = _
  exact lookupWallet_updWallet st.wallets wid _ (fun w => rfl)

lemma lookupRun_completeCommit (st : Store) (wid rid : Nat) (bal : Int)
    (now : Nat) :
    lookupRun (completeCommit st wid rid bal now) rid =
      (lookupRun st rid).map
        (fun r => { r with status := .completed, ended_at := some now }) := by
  show (st.sync_runs.map _).find? _ = _
  exact lookupRun_updRun st.sync_runs rid _ (fun r => rfl)

lemma lookupRun_markError (st : Store) (rid : Nat) (msg : String) (now : Nat) :
    lookupRun (markError st rid msg now) rid =
      (lookupRun st rid).map
        (fun r => { r with status := .error, error_message := some (msg.take 250), ended_at := some now }) := by
  show (st.sync_runs.map _).find? _ = _
  exact lookupRun_updRun st.sync_runs rid _ (fun r => rfl)

lemma lookupWallet_finishState (wid rid : Nat) (P : Nat → Payload) (j k : Nat)
    (st : Store) (bal : Int) (w : Wallet) (hw : lookupWallet st wid = some w) :
    ∃ x, lookupWallet (finishState wid rid P j k st bal).1 wid =
      some { w with balance_sat := x } := by
  obtain ⟨x, hx⟩ := lookupWallet_runPages wid rid P k j st bal w hw
  rw [finishState]
  by_cases he : (pageTxs (P (j+k))).isEmpty
  · simp only [he, if_true]
    exact ⟨x, hx⟩
  · simp only [he, Bool.false_eq_true, if_false]
    refine ⟨pageBalance (P (j+k)) (runPages wid rid P j k st bal).2, ?_⟩
    rw [lookupWallet_commitPage, hx]
    rfl

/-! ### Claim C5: malformed-but-decoded payloads -/

/-- Claim C5 counterexample: a successfully fetched payload that decodes
but is missing the `data`/`address`/`transactions` fields does NOT make
the run transition to `error`: on wallet 1 of `exStore`, one sync against
an upstream answering `{}` finishes with the run `completed`, an empty
error message, and the wallet balance silently kept at its prior value —
contradicting the claim's required error transition with a non-empty
message. -/
theorem missing_fields_counterexample :
    (sync_wallet exUpMissingData 3 5 exStore 1).isCompleted = true ∧
    ((sync_wallet exUpMissingData 3 5 exStore 1).store.sync_runs.map
      (fun r => (r.status, r.error_message)) = [(SyncStatus.completed, none)]) ∧
    (sync_wallet exUpMissingData 3 5 exStore 1).store.wallets.map
      Wallet.balance_sat = [777] := by
  refine ⟨rfl, ?_, rfl⟩
  rfl

/-- Claim C5 (amended): only payloads whose HTTP fetch or JSON decoding
fails (surfacing as a fetcher exception, modelled by `PageStep.fetchFail`)
mark the run `error`; a payload that decodes but is missing the
`data`/`address`/`transactions` fields is silently defaulted — balance
keeps its prior value, transactions default to empty — and the run
completes with status `completed` and no error message, after exactly one
page fetch. -/
theorem missing_fields_silently_default (up : Nat → PageStep) (st : Store)
    (wid : Nat) (w : Wallet) (now m : Nat)
    (h1 : lookupWallet st wid = some w)
    (h2 : ∀ r ∈ st.sync_runs, r.wallet_id ≠ wid)
    (hup : up 0 = .page ⟨none⟩ none) :
    (sync_wallet up now (m+1) st wid).isCompleted = true ∧
    (sync_wallet up now (m+1) st wid).fetched = 1 ∧
    lookupWallet ((sync_wallet up now (m+1) st wid).store) wid =
      some { w with last_synced_at := some now } ∧
    (lookupRun ((sync_wallet up now (m+1) st wid).store) (nextRunId st)).map
      (fun r => (r.status, r.error_message)) = some (.completed, none) ∧
    ((sync_wallet up now (m+1) st wid).store).transactions = st.transactions := by
  rw [sync_wallet_fresh up now (m+1) st wid w h1 h2]
  rw [syncLoop_finish_step up wid (nextRunId st) ⟨none⟩ m _ w.balance_sat 0 0 hup
        (by decide)]
  rw [show (pageTxs (⟨none⟩ : Payload)).isEmpty = true from rfl, if_pos rfl]
  refine ⟨rfl, rfl, ?_, ?_, rfl⟩
  · rw [show (finishSync wid (nextRunId st) now 0
        (.finished { st with sync_runs := st.sync_runs ++ [freshRun st wid now] }
          (pageBalance ⟨none⟩ w.balance_sat) 1)).store =
      completeCommit { st with sync_runs := st.sync_runs ++ [freshRun st wid now] }
        wid (nextRunId st) (pageBalance ⟨none⟩ w.balance_sat) now from rfl]
    rw [lookupWallet_completeCommit]
    rw [show lookupWallet { st with sync_runs := st.sync_runs ++ [freshRun st wid now] }
        wid = lookupWallet st wid from rfl, h1]
    rfl
  · rw [show (finishSync wid (nextRunId st) now 0
        (.finished { st with sync_runs := st.sync_runs ++ [freshRun st wid now] }
          (pageBalance ⟨none⟩ w.balance_sat) 1)).store =
      completeCommit { st with sync_runs := st.sync_runs ++ [freshRun st wid now] }
        wid (nextRunId st) (pageBalance ⟨none⟩ w.balance_sat) now from rfl]
    rw [lookupRun_completeCommit]
    rw [show lookupRun { st with sync_runs := st.sync_runs ++ [freshRun st wid now] }
        (nextRunId st) =
      (st.sync_runs ++ [freshRun st wid now]).find?
        (fun r => r.id == nextRunId st) from rfl]
    rw [find?_append_right st.sync_runs _ (fun x hx => by
      simp [nextRunId_fresh st x hx])]
    rw [List.find?_cons_of_pos _ (by simp [freshRun])]
    rfl

theorem missing_fields_silently_default_witness :
    (sync_wallet exUpMissingData 3 5 exStore 1).isCompleted = true ∧
    lookupWallet ((sync_wallet exUpMissingData 3 5 exStore 1).store) 1 =
      some { exWallet with last_synced_at := some 3 } :=
  ⟨(missing_fields_silently_default exUpMissingData exStore 1 exWallet 3 4
      rfl (by simp [exStore]) rfl).1,
   (missing_fields_silently_default exUpMissingData exStore 1 exWallet 3 4
      rfl (by simp [exStore]) rfl).2.2.1⟩

/-! ### Claim C6: balance freshness -/

/-- Claim C6: the balance write is unconditional in the payload's balance
field (first conjunct: whenever the field is present it overwrites the
cached balance regardless of its prior value), and after a `completed`
fresh run over pages `0..k` (pages `0..k-1` full, page `k` short/last)
whose last page carries balance `b`, the wallet's cached balance equals
`b`, the balance reported on the last page fetched (second conjunct). -/
theorem balance_reflects_last_page :
    (∀ (p : Payload) (b cur : Int), balanceField p = some b →
        pageBalance p cur = b) ∧
    (∀ (up : Nat → PageStep) (P : Nat → Payload) (st : Store) (wid : Nat)
        (w : Wallet) (now k m : Nat) (b : Int),
        lookupWallet st wid = some w →
        (∀ r ∈ st.sync_runs, r.wallet_id ≠ wid) →
        (∀ i, i ≤ k → up (PAGE_SIZE * i) = .page (P i) none) →
        (∀ i, i < k → PAGE_SIZE ≤ (pageTxs (P i)).length) →
        (pageTxs (P k)).length < PAGE_SIZE →
        balanceField (P k) = some b →
        (sync_wallet up now (k+(m+1)) st wid).isCompleted = true ∧
        (sync_wallet up now (k+(m+1)) st wid).fetched = k+1 ∧
        lookupWallet ((sync_wallet up now (k+(m+1)) st wid).store) wid =
          some { w with balance_sat := b, last_synced_at := some now }) := by
  refine ⟨fun p b cur hb => pageBalance_of_field hb cur, ?_⟩
  intro up P st wid w now k m b h1 h2 hup hfull hshort hb
  rw [sync_wallet_fresh up now (k+(m+1)) st wid w h1 h2]
  have hfin := syncLoop_finishes up wid (nextRunId st) P k 0
    { st with sync_runs := st.sync_runs ++ [freshRun st wid now] } w.balance_sat 0 m
    (fun i hi => by simpa using hup i hi)
    (fun i hi => by simpa using hfull i hi)
    (by simpa using hshort)
  rw [Nat.mul_zero] at hfin
  rw [hfin]
  refine ⟨rfl, by show 0+(k+1) = k+1; omega, ?_⟩
  rw [show (finishSync wid (nextRunId st) now 0
      (.finished (finishState wid (nextRunId st) P 0 k
          { st with sync_runs := st.sync_runs ++ [freshRun st wid now] }
          w.balance_sat).1
        (finishState wid (nextRunId st) P 0 k
          { st with sync_runs := st.sync_runs ++ [freshRun st wid now] }
          w.balance_sat).2 (0+(k+1)))).store =
    completeCommit (finishState wid (nextRunId st) P 0 k
        { st with sync_runs := st.sync_runs ++ [freshRun st wid now] }
        w.balance_sat).1 wid (nextRunId st)
      (finishState wid (nextRunId st) P 0 k
        { st with sync_runs := st.sync_runs ++ [freshRun st wid now] }
        w.balance_sat).2 now from rfl]
  rw [lookupWallet_completeCommit]
  obtain ⟨x, hx⟩ := lookupWallet_finishState wid (nextRunId st) P 0 k
    { st with sync_runs := st.sync_runs ++ [freshRun st wid now] } w.balance_sat w h1
  rw [hx]
  have hbal : (finishState wid (nextRunId st) P 0 k
      { st with sync_runs := st.sync_runs ++ [freshRun st wid now] }
      w.balance_sat).2 = b := by
    rw [finishState_balance]
    exact pageBalance_of_field (by simpa using hb) _
  rw [hbal]
  rfl

theorem balance_reflects_last_page_witness :
    (sync_wallet exUpOnePage 3 1 exStore 1).isCompleted = true ∧
    lookupWallet ((sync_wallet exUpOnePage 3 1 exStore 1).store) 1 =
      some { exWallet with balance_sat := 5, last_synced_at := some 3 } := by
  have h := balance_reflects_last_page.2 exUpOnePage exPageFun exStore 1 exWallet
    3 0 0 5 rfl (by simp [exStore]) (fun _ _ => rfl)
    (fun i hi => absurd hi (by omega)) (by decide) (by decide)
  exact ⟨h.1, h.2.2⟩

/-! ### Claim C4: error handling on the page loop -/

lemma string_take_length_le (s : String) (n : Nat) : (s.take n).length ≤ n := by
  rw [String.length, String.data_take]
  exact (List.length_take n s.data).le.trans (min_le_left _ _)

lemma lookupWallet_runPages_bal (wid rid : Nat) (P : Nat → Payload) :
    ∀ (n j : Nat) (st : Store) (bal : Int) (w : Wallet),
      lookupWallet st wid = some w → w.balance_sat = bal →
      lookupWallet (runPages wid rid P j n st bal).1 wid =
        some { w with balance_sat := (runPages wid rid P j n st bal).2 } := by
  intro n
  induction n with
  | zero =>
    intro j st bal w hw hb
    show lookupWallet st wid = some { w with balance_sat := bal }
    rw [← hb]
    exact hw
  | succ n ih =>
    intro j st bal w hw hb
    have hc : lookupWallet
        (commitPage st wid rid (pageBalance (P j) bal) (PAGE_SIZE * (j+1)) (pageTxs (P j)))
        wid = some { w with balance_sat := pageBalance (P j) bal } := by
      rw [lookupWallet_commitPage, hw]
      rfl
    exact ih (j+1) _ (pageBalance (P j) bal)
      { w with balance_sat := pageBalance (P j) bal } hc rfl

/-- Claim C4: if pages `0..j-1` succeed and page `j` raises an
unrecoverable error (fetch-retry exhaustion, or a persistence failure
committing a non-empty page — whose page-local writes are rolled back),
then `sync_wallet` re-raises (`isFailed`) with the original message, and
in the committed store the run is marked `error` with `error_message =
str(exc)[:250]` (length ≤ 250) and a stamped `ended_at`, the run's offset
still points at the start of the failed page `PAGE_SIZE * j` (not past
it), the transaction table holds exactly the rows committed by pages
`0..j-1` (nothing of page `j` survives), and the wallet's balance is the
value committed by those earlier pages. -/
theorem error_path_marks_run (up : Nat → PageStep) (P : Nat → Payload)
    (st : Store) (wid : Nat) (w : Wallet) (now j m : Nat) (msg : String)
    (h1 : lookupWallet st wid = some w)
    (h2 : ∀ r ∈ st.sync_runs, r.wallet_id ≠ wid)
    (hup : ∀ i, i < j → up (PAGE_SIZE * i) = .page (P i) none)
    (hfull : ∀ i, i < j → PAGE_SIZE ≤ (pageTxs (P i)).length)
    (hfail : failsAt (up (PAGE_SIZE * j)) = some msg) :
    (sync_wallet up now (j+(m+1)) st wid).isFailed = true ∧
    (sync_wallet up now (j+(m+1)) st wid).failMsg = some msg ∧
    (sync_wallet up now (j+(m+1)) st wid).startOffset = 0 ∧
    (lookupRun ((sync_wallet up now (j+(m+1)) st wid).store) (nextRunId st)).map
      (fun r => (r.status, r.error_message, r.ended_at, r.current_offset)) =
      some (.error, some (msg.take 250), some now, PAGE_SIZE * j) ∧
    (msg.take 250).length ≤ 250 ∧
    ((sync_wallet up now (j+(m+1)) st wid).store).transactions =
      insertTxns st.transactions wid (pagesConcat P 0 j) ∧
    lookupWallet ((sync_wallet up now (j+(m+1)) st wid).store) wid =
      some { w with balance_sat :=
        (runPages wid (nextRunId st) P 0 j
          { st with sync_runs := st.sync_runs ++ [freshRun st wid now] }
          w.balance_sat).2 } := by
  rw [sync_wallet_fresh up now (j+(m+1)) st wid w h1 h2]
  have hpre := syncLoop_advance up wid (nextRunId st) P j 0
    { st with sync_runs := st.sync_runs ++ [freshRun st wid now] } w.balance_sat 0 (m+1)
    (fun i hi => by simpa using hup i hi)
    (fun i hi => by simpa using hfull i hi)
  rw [Nat.mul_zero] at hpre
  rw [Nat.zero_add] at hpre
  obtain ⟨f2, hf2⟩ := syncLoop_fail_step up wid (nextRunId st) msg m
    (runPages wid (nextRunId st) P 0 j
      { st with sync_runs := st.sync_runs ++ [freshRun st wid now] } w.balance_sat).1
    (runPages wid (nextRunId st) P 0 j
      { st with sync_runs := st.sync_runs ++ [freshRun st wid now] } w.balance_sat).2
    (PAGE_SIZE * j) j hfail
  rw [hpre, hf2]
  have hruns : (runPages wid (nextRunId st) P 0 j
      { st with sync_runs := st.sync_runs ++ [freshRun st wid now] }
      w.balance_sat).1.sync_runs =
      st.sync_runs ++ [{ freshRun st wid now with current_offset := PAGE_SIZE * j }] := by
    have := runPages_runs_fresh wid (nextRunId st) P j 0 st.sync_runs
      (freshRun st wid now)
      { st with sync_runs := st.sync_runs ++ [freshRun st wid now] }
      w.balance_sat rfl (nextRunId_fresh st) rfl rfl
    rw [this, Nat.zero_add]
  refine ⟨rfl, rfl, rfl, ?_, string_take_length_le msg 250, ?_, ?_⟩
  · show (lookupRun (markError _ (nextRunId st) msg now) (nextRunId st)).map _ = _
    rw [lookupRun_markError]
    rw [show lookupRun (runPages wid (nextRunId st) P 0 j
        { st with sync_runs := st.sync_runs ++ [freshRun st wid now] }
        w.balance_sat).1 (nextRunId st) =
      ((runPages wid (nextRunId st) P 0 j
        { st with sync_runs := st.sync_runs ++ [freshRun st wid now] }
        w.balance_sat).1.sync_runs).find? (fun r => r.id == nextRunId st) from rfl]
    rw [hruns]
    rw [find?_append_right st.sync_runs _ (fun x hx => by
      simp [nextRunId_fresh st x hx])]
    rw [List.find?_cons_of_pos _ (by simp [freshRun])]
    rfl
  · show (markError _ (nextRunId st) msg now).transactions = _
    rw [show (markError (runPages wid (nextRunId st) P 0 j
        { st with sync_runs := st.sync_runs ++ [freshRun st wid now] }
        w.balance_sat).1 (nextRunId st) msg now).transactions =
      (runPages wid (nextRunId st) P 0 j
        { st with sync_runs := st.sync_runs ++ [freshRun st wid now] }
        w.balance_sat).1.transactions from rfl]
    rw [runPages_transactions]
  · show lookupWallet (markError _ (nextRunId st) msg now) wid = _
    rw [show lookupWallet (markError (runPages wid (nextRunId st) P 0 j
        { st with sync_runs := st.sync_runs ++ [freshRun st wid now] }
        w.balance_sat).1 (nextRunId st) msg now) wid =
      lookupWallet (runPages wid (nextRunId st) P 0 j
        { st with sync_runs := st.sync_runs ++ [freshRun st wid now] }
        w.balance_sat).1 wid from rfl]
    exact lookupWallet_runPages_bal wid (nextRunId st) P j 0
      { st with sync_runs := st.sync_runs ++ [freshRun st wid now] }
      w.balance_sat w h1 rfl

theorem error_path_marks_run_witness :
    (sync_wallet exUpFetchFail 3 5 exStore 1).isFailed = true ∧
    (sync_wallet exUpFetchFail 3 5 exStore 1).failMsg = some "connection reset" ∧
    (lookupRun ((sync_wallet exUpFetchFail 3 5 exStore 1).store) 1).map
      (fun r => (r.status, r.error_message, r.ended_at, r.current_offset)) =
      some (.error, some (("connection reset").take 250), some 3, 0) := by
  have h := error_path_marks_run exUpFetchFail exPageFun exStore 1 exWallet 3 0 4
    "connection reset" rfl (by simp [exStore])
    (fun i hi => absurd hi (by omega)) (fun i hi => absurd hi (by omega)) rfl
  exact ⟨h.1, h.2.1, h.2.2.2.1⟩

/-! ### Claim C1: resumability -/

lemma pagesConcat_add (P : Nat → Payload) :
    ∀ (a j b : Nat), pagesConcat P j (a+b) =
      pagesConcat P j a ++ pagesConcat P (j+a) b := by
  intro a
  induction a with
  | zero =>
    intro j b
    rw [Nat.zero_add]
    show pagesConcat P j b = pagesConcat P j 0 ++ pagesConcat P (j+0) b
    rw [show pagesConcat P j 0 = [] from rfl, List.nil_append]
    rfl
  | succ a ih =>
    intro j b
    rw [show a+1+b = (a+b)+1 from by omega]
    show pageTxs (P j) ++ pagesConcat P (j+1) (a+b) =
      (pageTxs (P j) ++ pagesConcat P (j+1) a) ++ pagesConcat P (j+(a+1)) b
    rw [ih (j+1) b, show j+1+a = j+(a+1) from by omega, List.append_assoc]

/-- Claim C1: starting a fresh sync for wallet `wid` and interrupting the
worker after `n` committed pages leaves the latest `SyncRun` for the
wallet `in_progress` with checkpointed offset `O = PAGE_SIZE * n`; the
next `sync_wallet` invocation resumes that very run, begins fetching at
offset `O` (not 0), completes after fetching exactly the remaining pages
`n..k`, and its final transaction table is identical to that of a single
uninterrupted run over the same upstream data. -/
theorem resume_equals_uninterrupted (up : Nat → PageStep) (P : Nat → Payload)
    (st : Store) (wid : Nat) (w : Wallet)
    (now₁ now₂ now₃ n k m₁ m₂ : Nat)
    (h1 : lookupWallet st wid = some w)
    (h2 : ∀ r ∈ st.sync_runs, r.wallet_id ≠ wid)
    (hup : ∀ i, i ≤ k → up (PAGE_SIZE * i) = .page (P i) none)
    (hfull : ∀ i, i < k → PAGE_SIZE ≤ (pageTxs (P i)).length)
    (hshort : (pageTxs (P k)).length < PAGE_SIZE)
    (hn : n ≤ k) :
    (sync_wallet up now₁ n st wid).startOffset = 0 ∧
    (sync_wallet up now₁ n st wid).fetched = n ∧
    (latestRunFor ((sync_wallet up now₁ n st wid).store) wid).map
      (fun r => (r.status, r.current_offset)) =
      some (SyncStatus.in_progress, PAGE_SIZE * n) ∧
    (sync_wallet up now₂ ((k-n)+(m₂+1))
      ((sync_wallet up now₁ n st wid).store) wid).startOffset = PAGE_SIZE * n ∧
    (sync_wallet up now₂ ((k-n)+(m₂+1))
      ((sync_wallet up now₁ n st wid).store) wid).isCompleted = true ∧
    (sync_wallet up now₂ ((k-n)+(m₂+1))
      ((sync_wallet up now₁ n st wid).store) wid).fetched = (k-n)+1 ∧
    (sync_wallet up now₃ (k+(m₁+1)) st wid).isCompleted = true ∧
    ((sync_wallet up now₂ ((k-n)+(m₂+1))
      ((sync_wallet up now₁ n st wid).store) wid).store).transactions =
      ((sync_wallet up now₃ (k+(m₁+1)) st wid).store).transactions := by
  have hcrash : sync_wallet up now₁ n st wid =
      .interrupted (runPages wid (nextRunId st) P 0 n
        { st with sync_runs := st.sync_runs ++ [freshRun st wid now₁] }
        w.balance_sat).1 0 n := by
    rw [sync_wallet_fresh up now₁ n st wid w h1 h2]
    have hc := syncLoop_crashes up wid (nextRunId st) P n 0
      { st with sync_runs := st.sync_runs ++ [freshRun st wid now₁] } w.balance_sat 0
      (fun i hi => by simpa using hup i (by omega))
      (fun i hi => by simpa using hfull i (by omega))
    rw [Nat.mul_zero] at hc
    rw [Nat.zero_add] at hc
    rw [hc]
    rfl
  have hrunsC : (runPages wid (nextRunId st) P 0 n
      { st with sync_runs := st.sync_runs ++ [freshRun st wid now₁] }
      w.balance_sat).1.sync_runs =
      st.sync_runs ++ [{ freshRun st wid now₁ with current_offset := PAGE_SIZE * n }] := by
    have h := runPages_runs_fresh wid (nextRunId st) P n 0 st.sync_runs
      (freshRun st wid now₁)
      { st with sync_runs := st.sync_runs ++ [freshRun st wid now₁] }
      w.balance_sat rfl (nextRunId_fresh st) rfl rfl
    rw [Nat.zero_add] at h
    exact h
  have hlatest : latestRunFor (runPages wid (nextRunId st) P 0 n
      { st with sync_runs := st.sync_runs ++ [freshRun st wid now₁] }
      w.balance_sat).1 wid =
      some { freshRun st wid now₁ with current_offset := PAGE_SIZE * n } := by
    show ((runPages wid (nextRunId st) P 0 n _ w.balance_sat).1.sync_runs).find? _ = _
    rw [hrunsC, find?_append_right st.sync_runs _ (fun x hx => by simp [h2 x hx]),
        List.find?_cons_of_pos _ (by simp [freshRun])]
  have hwC : lookupWallet (runPages wid (nextRunId st) P 0 n
      { st with sync_runs := st.sync_runs ++ [freshRun st wid now₁] }
      w.balance_sat).1 wid =
      some { w with balance_sat := (runPages wid (nextRunId st) P 0 n
        { st with sync_runs := st.sync_runs ++ [freshRun st wid now₁] }
        w.balance_sat).2 } :=
    lookupWallet_runPages_bal wid (nextRunId st) P n 0
      { st with sync_runs := st.sync_runs ++ [freshRun st wid now₁] }
      w.balance_sat w h1 rfl
  have hres : sync_wallet up now₂ ((k-n)+(m₂+1))
      (runPages wid (nextRunId st) P 0 n
        { st with sync_runs := st.sync_runs ++ [freshRun st wid now₁] }
        w.balance_sat).1 wid =
      .completed (completeCommit
        (finishState wid (nextRunId st) P n (k-n)
          (runPages wid (nextRunId st) P 0 n
            { st with sync_runs := st.sync_runs ++ [freshRun st wid now₁] }
            w.balance_sat).1
          (runPages wid (nextRunId st) P 0 n
            { st with sync_runs := st.sync_runs ++ [freshRun st wid now₁] }
            w.balance_sat).2).1 wid (nextRunId st)
        (finishState wid (nextRunId st) P n (k-n)
          (runPages wid (nextRunId st) P 0 n
            { st with sync_runs := st.sync_runs ++ [freshRun st wid now₁] }
            w.balance_sat).1
          (runPages wid (nextRunId st) P 0 n
            { st with sync_runs := st.sync_runs ++ [freshRun st wid now₁] }
            w.balance_sat).2).2 now₂) (PAGE_SIZE * n) ((k-n)+1) := by
    rw [sync_wallet_resume up now₂ ((k-n)+(m₂+1))
      (runPages wid (nextRunId st) P 0 n
        { st with sync_runs := st.sync_runs ++ [freshRun st wid now₁] }
        w.balance_sat).1 wid _ _ hwC hlatest rfl]
    have hfin := syncLoop_finishes up wid (nextRunId st) P (k-n) n
      (runPages wid (nextRunId st) P 0 n
        { st with sync_runs := st.sync_runs ++ [freshRun st wid now₁] }
        w.balance_sat).1
      (runPages wid (nextRunId st) P 0 n
        { st with sync_runs := st.sync_runs ++ [freshRun st wid now₁] }
        w.balance_sat).2 0 m₂
      (fun i hi => hup (n+i) (by omega))
      (fun i hi => hfull (n+i) (by omega))
      (by rw [show n+(k-n) = k from by omega]; exact hshort)
    rw [Nat.zero_add] at hfin
    show finishSync wid (nextRunId st) now₂ (PAGE_SIZE * n)
      (syncLoop up wid (nextRunId st) ((k-n)+(m₂+1))
        (runPages wid (nextRunId st) P 0 n
          { st with sync_runs := st.sync_runs ++ [freshRun st wid now₁] }
          w.balance_sat).1
        (runPages wid (nextRunId st) P 0 n
          { st with sync_runs := st.sync_runs ++ [freshRun st wid now₁] }
          w.balance_sat).2 (PAGE_SIZE * n) 0) = _
    rw [hfin]
    rfl
  have huni : sync_wallet up now₃ (k+(m₁+1)) st wid =
      .completed (completeCommit
        (finishState wid (nextRunId st) P 0 k
          { st with sync_runs := st.sync_runs ++ [freshRun st wid now₃] }
          w.balance_sat).1 wid (nextRunId st)
        (finishState wid (nextRunId st) P 0 k
          { st with sync_runs := st.sync_runs ++ [freshRun st wid now₃] }
          w.balance_sat).2 now₃) 0 (k+1) := by
    rw [sync_wallet_fresh up now₃ (k+(m₁+1)) st wid w h1 h2]
    have hfin := syncLoop_finishes up wid (nextRunId st) P k 0
      { st with sync_runs := st.sync_runs ++ [freshRun st wid now₃] }
      w.balance_sat 0 m₁
      (fun i hi => by simpa using hup i hi)
      (fun i hi => by simpa using hfull i hi)
      (by simpa using hshort)
    rw [Nat.mul_zero] at hfin
    rw [Nat.zero_add] at hfin
    rw [hfin]
    rfl
  rw [hcrash]
  rw [show ∀ (s : Store) (o f : Nat), (SyncResult.interrupted s o f).store = s
    from fun s o f => rfl]
  rw [hres, huni]
  refine ⟨rfl, rfl, ?_, rfl, rfl, rfl, rfl, ?_⟩
  · rw [hlatest]
    rfl
  · show (completeCommit _ wid (nextRunId st) _ now₂).transactions =
      (completeCommit _ wid (nextRunId st) _ now₃).transactions
    rw [show ∀ (s : Store) (b : Int) (t : Nat),
        (completeCommit s wid (nextRunId st) b t).transactions = s.transactions
      from fun s b t => rfl]
    rw [show ∀ (s : Store) (b : Int) (t : Nat),
        (completeCommit s wid (nextRunId st) b t).transactions = s.transactions
      from fun s b t => rfl]
    rw [finishState_transactions, finishState_transactions]
    rw [runPages_transactions]
    rw [show ({ st with sync_runs := st.sync_runs ++ [freshRun st wid now₁] } :
        Store).transactions = st.transactions from rfl]
    rw [show ({ st with sync_runs := st.sync_runs ++ [freshRun st wid now₃] } :
        Store).transactions = st.transactions from rfl]
    rw [← insertTxns_append]
    rw [← List.append_assoc]
    rw [show pagesConcat P 0 n ++ pagesConcat P n (k-n) = pagesConcat P 0 k from by
      have h := pagesConcat_add P n 0 (k-n)
      rw [Nat.zero_add] at h
      rw [show n+(k-n) = k from by omega] at h
      exact h.symm]
    rw [show n+(k-n) = k from by omega, Nat.zero_add]

theorem resume_equals_uninterrupted_witness :
    (latestRunFor ((sync_wallet exUpMix 3 1 exStore 1).store) 1).map
      (fun r => (r.status, r.current_offset)) =
      some (SyncStatus.in_progress, PAGE_SIZE * 1) ∧
    (sync_wallet exUpMix 4 2 ((sync_wallet exUpMix 3 1 exStore 1).store) 1).startOffset =
      PAGE_SIZE * 1 ∧
    ((sync_wallet exUpMix 4 2 ((sync_wallet exUpMix 3 1 exStore 1).store) 1).store).transactions =
      ((sync_wallet exUpMix 5 3 exStore 1).store).transactions := by
  have h := resume_equals_uninterrupted exUpMix exPageMix exStore 1 exWallet
    3 4 5 1 2 0 0 rfl (by simp [exStore])
    (fun i _ => by
      show PageStep.page (exPageMix (PAGE_SIZE * i / PAGE_SIZE)) none = _
      rw [Nat.mul_div_cancel_left i (by norm_num [PAGE_SIZE])])
    (fun i hi => by
      rw [show exPageMix i = exPayloadFull i from by simp [exPageMix, hi]]
      rw [show pageTxs (exPayloadFull i) = exHashes i from rfl]
      rw [show (exHashes i).length = PAGE_SIZE from by simp [exHashes]])
    (by decide) (by omega)
  exact ⟨h.2.2.1, h.2.2.2.1, h.2.2.2.2.2.2.2⟩

/-! ### Run-table shape of a sync invocation (for C7/C8) -/

lemma map_eq_self_of (l : List SyncRun) (f : SyncRun → SyncRun)
    (h : ∀ a ∈ l, f a = a) : l.map f = l := by
  induction l with
  | nil => rfl
  | cons a t ih =>
    rw [List.map_cons, h a (List.mem_cons_self a t),
        ih (fun x hx => h x (List.mem_cons_of_mem a hx))]

lemma RunShape_id (rid : Nat) : RunShape rid (fun r => r) :=
  ⟨fun _ => ⟨rfl, rfl, rfl, rfl⟩, fun _ _ => rfl⟩

lemma RunShape_comp {rid : Nat} {φ₁ φ₂ : SyncRun → SyncRun}
    (h1 : RunShape rid φ₁) (h2 : RunShape rid φ₂) :
    RunShape rid (fun r => φ₂ (φ₁ r)) := by
  refine ⟨fun r => ?_, fun r hr => ?_⟩
  · obtain ⟨a1, b1, c1, d1⟩ := h1.1 r
    obtain ⟨a2, b2, c2, d2⟩ := h2.1 (φ₁ r)
    exact ⟨a2.trans a1, b2.trans b1, c2.trans c1, d2.trans d1⟩
  · show φ₂ (φ₁ r) = r
    rw [h1.2 r hr, h2.2 r hr]

lemma RunShape_update (rid : Nat) (g : SyncRun → SyncRun)
    (hg : ∀ r, (g r).id = r.id ∧ (g r).wallet_id = r.wallet_id ∧
      (g r).started_at = r.started_at ∧ (g r).is_latest = r.is_latest) :
    RunShape rid (fun r => if r.id == rid then g r else r) := by
  refine ⟨fun r => ?_, fun r hr => ?_⟩
  · by_cases h : r.id == rid
    · simpa [h] using hg r
    · simp [h]
  · simp [hr]

lemma syncLoop_runs_shape (up : Nat → PageStep) (wid rid : Nat) :
    ∀ (fuel : Nat) (st : Store) (bal : Int) (off f : Nat),
      ∃ φ : SyncRun → SyncRun, RunShape rid φ ∧
        ((syncLoop up wid rid fuel st bal off f).store).sync_runs =
          st.sync_runs.map φ := by
  intro fuel
  induction fuel with
  | zero =>
    intro st bal off f
    exact ⟨fun r => r, RunShape_id rid, by simp [syncLoop, LoopOut.store]⟩
  | succ fuel ih =>
    intro st bal off f
    cases hstep : up off with
    | fetchFail msg =>
      exact ⟨fun r => r, RunShape_id rid,
        by simp [syncLoop, hstep, LoopOut.store]⟩
    | page p cerr =>
      by_cases he : (pageTxs p).isEmpty
      · exact ⟨fun r => r, RunShape_id rid,
          by simp [syncLoop, hstep, he, LoopOut.store]⟩
      · cases cerr with
        | some msg =>
          exact ⟨fun r => r, RunShape_id rid,
            by simp [syncLoop, hstep, he, LoopOut.store]⟩
        | none =>
          by_cases hlen : (pageTxs p).length < PAGE_SIZE
          · refine ⟨fun r => if r.id == rid then { r with current_offset := off + PAGE_SIZE } else r,
              RunShape_update rid _ (fun r => ⟨rfl, rfl, rfl, rfl⟩), ?_⟩
            simp [syncLoop, hstep, he, hlen, LoopOut.store, commitPage, setRunOffset]
          · obtain ⟨φ, hφ, heq⟩ := ih (commitPage st wid rid (pageBalance p bal)
              (off + PAGE_SIZE) (pageTxs p)) (pageBalance p bal) (off + PAGE_SIZE) (f+1)
            refine ⟨fun r => φ (if r.id == rid then { r with current_offset := off + PAGE_SIZE } else r),
              RunShape_comp (RunShape_update rid _ (fun r => ⟨rfl, rfl, rfl, rfl⟩)) hφ, ?_⟩
            rw [show ((syncLoop up wid rid (fuel+1) st bal off f).store).sync_runs =
              ((syncLoop up wid rid fuel (commitPage st wid rid (pageBalance p bal)
                (off + PAGE_SIZE) (pageTxs p)) (pageBalance p bal) (off + PAGE_SIZE)
                (f+1)).store).sync_runs from by
              simp [syncLoop, hstep, he, hlen]]
            rw [heq]
            show (setRunOffset st.sync_runs rid (off + PAGE_SIZE)).map φ = _
            rw [setRunOffset, List.map_map]
            rfl

lemma finishSync_runs_shape (wid rid now off : Nat) (lo : LoopOut) :
    ∃ φ : SyncRun → SyncRun, RunShape rid φ ∧
      ((finishSync wid rid now off lo).store).sync_runs =
        ((lo.store).sync_runs).map φ := by
  cases lo with
  | finished st bal fetched =>
    refine ⟨fun r => if r.id == rid then { r with status := .completed, ended_at := some now } else r,
      RunShape_update rid _ (fun r => ⟨rfl, rfl, rfl, rfl⟩), rfl⟩
  | failed st msg fetched =>
    refine ⟨fun r => if r.id == rid then { r with status := .error, error_message := some (msg.take 250), ended_at := some now } else r,
      RunShape_update rid _ (fun r => ⟨rfl, rfl, rfl, rfl⟩), rfl⟩
  | crashed st fetched =>
    exact ⟨fun r => r, RunShape_id rid, by simp [finishSync, LoopOut.store, SyncResult.store]⟩

/-- The three possible effects of one `sync_wallet` invocation on the run
table: untouched (missing wallet); a `RunShape`-respecting rewrite of the
resumed in-progress latest run; or the latest-flag flip (when a
non-in-progress latest run existed) plus the appended fresh run, itself
rewritten `RunShape`-respectingly. -/
lemma sync_wallet_runs_cases (up : Nat → PageStep) (now fuel : Nat)
    (st : Store) (wid : Nat) :
    ((sync_wallet up now fuel st wid).store).sync_runs = st.sync_runs ∨
    (∃ cs φ, latestRunFor st wid = some cs ∧ cs.status = .in_progress ∧
      RunShape cs.id φ ∧
      ((sync_wallet up now fuel st wid).store).sync_runs = st.sync_runs.map φ) ∨
    (∃ φ B, RunShape (nextRunId st) φ ∧
      (∀ x ∈ st.sync_runs, x.id ≠ nextRunId st) ∧
      ((sync_wallet up now fuel st wid).store).sync_runs =
        B ++ [φ (freshRun st wid now)] ∧
      ((latestRunFor st wid = none ∧ B = st.sync_runs) ∨
       (∃ cs, latestRunFor st wid = some cs ∧ ¬ cs.status = .in_progress ∧
         B = setRunLatestFalse st.sync_runs cs.id))) := by
  cases hw : lookupWallet st wid with
  | none =>
    left
    simp [sync_wallet, hw, SyncResult.store]
  | some w =>
    cases hcs : latestRunFor st wid with
    | some cs =>
      by_cases hip : cs.status = .in_progress
      · right; left
        have hsw : sync_wallet up now fuel st wid =
            finishSync wid cs.id now cs.current_offset
              (syncLoop up wid cs.id fuel st w.balance_sat cs.current_offset 0) :=
          sync_wallet_resume up now fuel st wid w cs hw hcs hip
        obtain ⟨φ₁, h1, e1⟩ := syncLoop_runs_shape up wid cs.id fuel st
          w.balance_sat cs.current_offset 0
        obtain ⟨φ₂, h2, e2⟩ := finishSync_runs_shape wid cs.id now
          cs.current_offset (syncLoop up wid cs.id fuel st w.balance_sat
            cs.current_offset 0)
        refine ⟨cs, fun r => φ₂ (φ₁ r), rfl, hip, RunShape_comp h1 h2, ?_⟩
        rw [hsw, e2, e1, List.map_map]
        rfl
      · right; right
        have hsw : sync_wallet up now fuel st wid =
            finishSync wid (nextRunId st) now 0
              (syncLoop up wid (nextRunId st) fuel
                { st with sync_runs := setRunLatestFalse st.sync_runs cs.id ++ [freshRun st wid now] }
                w.balance_sat 0 0) := by
          simp [sync_wallet, hw, startRun, hcs, hip, freshRun]
        obtain ⟨φ₁, h1, e1⟩ := syncLoop_runs_shape up wid (nextRunId st) fuel
          { st with sync_runs := setRunLatestFalse st.sync_runs cs.id ++ [freshRun st wid now] }
          w.balance_sat 0 0
        obtain ⟨φ₂, h2, e2⟩ := finishSync_runs_shape wid (nextRunId st) now 0
          (syncLoop up wid (nextRunId st) fuel
            { st with sync_runs := setRunLatestFalse st.sync_runs cs.id ++ [freshRun st wid now] }
            w.balance_sat 0 0)
        refine ⟨fun r => φ₂ (φ₁ r), setRunLatestFalse st.sync_runs cs.id,
          RunShape_comp h1 h2, nextRunId_fresh st, ?_, Or.inr ⟨cs, rfl, hip, rfl⟩⟩
        rw [hsw, e2, e1, List.map_map]
        show ((setRunLatestFalse st.sync_runs cs.id ++ [freshRun st wid now]).map
          (fun r => φ₂ (φ₁ r))) = _
        rw [List.map_append]
        congr 1
        apply map_eq_self_of
        intro a ha
        obtain ⟨y, hy, hya⟩ := List.mem_map.mp (by
          show a ∈ st.sync_runs.map
            (fun r => if r.id == cs.id then { r with is_latest := false } else r)
          exact ha)
        have hid : a.id ≠ nextRunId st := by
          rw [← hya]
          have : (if y.id == cs.id then { y with is_latest := false } else y).id = y.id := by
            by_cases h : y.id == cs.id <;> simp [h]
          rw [this]
          exact nextRunId_fresh st y hy
        show φ₂ (φ₁ a) = a
        rw [h1.2 a hid, h2.2 a hid]
    | none =>
      right; right
      have hsw : sync_wallet up now fuel st wid =
          finishSync wid (nextRunId st) now 0
            (syncLoop up wid (nextRunId st) fuel
              { st with sync_runs := st.sync_runs ++ [freshRun st wid now] }
              w.balance_sat 0 0) := by
        simp [sync_wallet, hw, startRun, hcs, freshRun]
      obtain ⟨φ₁, h1, e1⟩ := syncLoop_runs_shape up wid (nextRunId st) fuel
        { st with sync_runs := st.sync_runs ++ [freshRun st wid now] }
        w.balance_sat 0 0
      obtain ⟨φ₂, h2, e2⟩ := finishSync_runs_shape wid (nextRunId st) now 0
        (syncLoop up wid (nextRunId st) fuel
          { st with sync_runs := st.sync_runs ++ [freshRun st wid now] }
          w.balance_sat 0 0)
      refine ⟨fun r => φ₂ (φ₁ r), st.sync_runs,
        RunShape_comp h1 h2, nextRunId_fresh st, ?_, Or.inl ⟨rfl, rfl⟩⟩
      rw [hsw, e2, e1, List.map_map]
      show ((st.sync_runs ++ [freshRun st wid now]).map (fun r => φ₂ (φ₁ r))) = _
      rw [List.map_append]
      congr 1
      apply map_eq_self_of
      intro a ha
      have hid : a.id ≠ nextRunId st := nextRunId_fresh st a ha
      show φ₂ (φ₁ a) = a
      rw [h1.2 a hid, h2.2 a hid]

/-! ### Run-table invariant preservation -/

lemma countP_le_one_unique {α : Type} (p : α → Bool) :
    ∀ (l : List α), l.countP p ≤ 1 →
      ∀ a ∈ l, p a → ∀ b ∈ l, p b → a = b := by
  intro l
  induction l with
  | nil => simp
  | cons c t ih =>
    intro h a ha hpa b hb hpb
    rw [List.countP_cons] at h
    by_cases hpc : p c
    · have ht : t.countP p = 0 := by rw [if_pos hpc] at h; omega
      have hnot : ∀ x ∈ t, ¬ p x := List.countP_eq_zero.mp ht
      rcases List.mem_cons.mp ha with rfl | hat
      · rcases List.mem_cons.mp hb with rfl | hbt
        · rfl
        · exact absurd hpb (hnot b hbt)
      · exact absurd hpa (hnot a hat)
    · have h' : t.countP p ≤ 1 := by rw [if_neg hpc] at h; omega
      rcases List.mem_cons.mp ha with rfl | hat
      · exact absurd hpa hpc
      · rcases List.mem_cons.mp hb with rfl | hbt
        · exact absurd hpb hpc
        · exact ih h' a hat hpa b hbt hpb

lemma nodup_ids_unique :
    ∀ (l : List SyncRun), (l.map SyncRun.id).Nodup →
      ∀ a ∈ l, ∀ b ∈ l, a.id = b.id → a = b := by
  intro l
  induction l with
  | nil => simp
  | cons c t ih =>
    intro h a ha b hb hab
    rw [List.map_cons, List.nodup_cons] at h
    obtain ⟨hc, ht⟩ := h
    rcases List.mem_cons.mp ha with rfl | hat
    · rcases List.mem_cons.mp hb with rfl | hbt
      · rfl
      · exact absurd (hab ▸ List.mem_map_of_mem SyncRun.id hbt) hc
    · rcases List.mem_cons.mp hb with rfl | hbt
      · exact absurd (hab ▸ List.mem_map_of_mem SyncRun.id hat) hc
      · exact ih ht a hat b hbt hab

lemma countP_congr_mem {α : Type} (p q : α → Bool) :
    ∀ (l : List α), (∀ a ∈ l, p a = q a) → l.countP p = l.countP q := by
  intro l
  induction l with
  | nil => intro; rfl
  | cons c t ih =>
    intro h
    rw [List.countP_cons, List.countP_cons, h c (List.mem_cons_self c t),
        ih (fun x hx => h x (List.mem_cons_of_mem c hx))]

/-- A `RunShape`-respecting rewrite of the run whose id is that of a
latest run preserves the invariant. -/
lemma RunsInv_map (rs : List SyncRun) (t t' : Nat) (φ : SyncRun → SyncRun)
    (cs : SyncRun) (hin : RunsInv rs t) (ht : t < t')
    (hcsmem : cs ∈ rs) (hcslat : cs.is_latest = true)
    (hφ : RunShape cs.id φ) :
    RunsInv (rs.map φ) t' := by
  obtain ⟨hnodup, htime, hcount, hinprog, hmax⟩ := hin
  have hmeta := hφ.1
  refine ⟨?_, ?_, ?_, ?_, ?_⟩
  · rw [List.map_map]
    rw [show List.map (SyncRun.id ∘ φ) rs = List.map SyncRun.id rs from
      List.map_congr_left (fun a _ => (hmeta a).1)]
    exact hnodup
  · intro r' hr'
    obtain ⟨r, hr, rfl⟩ := List.mem_map.mp hr'
    rw [(hmeta r).2.2.1]
    exact lt_trans (htime r hr) ht
  · intro w'
    rw [List.countP_map,
      countP_congr_mem _ _ rs (fun a _ => by
        show ((φ a).wallet_id == w' && (φ a).is_latest) = _
        rw [(hmeta a).2.1, (hmeta a).2.2.2])]
    exact hcount w'
  · intro r' hr' hs
    obtain ⟨r, hr, rfl⟩ := List.mem_map.mp hr'
    rw [(hmeta r).2.2.2]
    by_cases hid : r.id = cs.id
    · rw [nodup_ids_unique rs hnodup r hr cs hcsmem hid]
      exact hcslat
    · rw [hφ.2 r hid] at hs
      exact hinprog r hr hs
  · intro r₁' hr₁' r₂' hr₂' hwids hlat hid
    obtain ⟨r₁, hr₁, rfl⟩ := List.mem_map.mp hr₁'
    obtain ⟨r₂, hr₂, rfl⟩ := List.mem_map.mp hr₂'
    rw [(hmeta r₁).2.1, (hmeta r₂).2.1] at hwids
    rw [(hmeta r₁).2.2.2] at hlat
    rw [(hmeta r₁).2.2.1, (hmeta r₂).2.2.1]
    rw [(hmeta r₁).1, (hmeta r₂).1] at hid
    exact hmax r₁ hr₁ r₂ hr₂ hwids hlat hid

/-- Appending a fresh `is_latest` run started at `t` to a table `B` that
kept the old rows' identities and start times, has no remaining latest
row for the synced wallet, and did not increase any wallet's latest
count, preserves the invariant. -/
lemma RunsInv_append_fresh (rs B : List SyncRun) (t t' wid : Nat)
    (newR : SyncRun) (hin : RunsInv rs t) (ht : t < t')
    (hids : B.map SyncRun.id = rs.map SyncRun.id)
    (hmem : ∀ x ∈ B, ∃ y ∈ rs, y.id = x.id ∧ y.wallet_id = x.wallet_id ∧
      y.started_at = x.started_at ∧ y.status = x.status ∧
      (x.is_latest = y.is_latest ∨
        (x.is_latest = false ∧ ¬ y.status = SyncStatus.in_progress)))
    (hnolat : ∀ x ∈ B, x.wallet_id = wid → x.is_latest = false)
    (hcnt : ∀ w' : Nat, B.countP (fun r => r.wallet_id == w' && r.is_latest) ≤
      rs.countP (fun r => r.wallet_id == w' && r.is_latest))
    (hfreshid : ∀ y ∈ rs, y.id ≠ newR.id)
    (hneww : newR.wallet_id = wid) (hnewt : newR.started_at = t)
    (hnewl : newR.is_latest = true) :
    RunsInv (B ++ [newR]) t' := by
  obtain ⟨hnodup, htime, hcount, hinprog, hmax⟩ := hin
  refine ⟨?_, ?_, ?_, ?_, ?_⟩
  · rw [List.map_append, List.nodup_append]
    refine ⟨by rw [hids]; exact hnodup, by simp, ?_⟩
    intro a ha hb
    have hane : a = newR.id := by simpa using hb
    rw [hids] at ha
    obtain ⟨y, hy, hya⟩ := List.mem_map.mp ha
    exact hfreshid y hy (hya.trans hane)
  · intro r hr
    rcases List.mem_append.mp hr with hrB | hrN
    · obtain ⟨y, hy, _, _, hst, _, _⟩ := hmem r hrB
      rw [← hst]
      exact lt_trans (htime y hy) ht
    · rw [List.mem_singleton.mp hrN, hnewt]
      exact ht
  · intro w'
    rw [List.countP_append]
    by_cases hw : w' = wid
    · subst hw
      have hB0 : B.countP (fun r => r.wallet_id == w' && r.is_latest) = 0 := by
        apply List.countP_eq_zero.mpr
        intro x hx
        simp only [Bool.and_eq_true, beq_iff_eq, not_and]
        intro hxw
        rw [hnolat x hx hxw]
        simp
      rw [hB0]
      simp [hneww, hnewl]
    · have hN0 : List.countP (fun r => r.wallet_id == w' && r.is_latest) [newR] = 0 := by
        apply List.countP_eq_zero.mpr
        intro x hx
        rw [List.mem_singleton.mp hx]
        simp only [Bool.and_eq_true, beq_iff_eq, not_and]
        intro hxw
        exact absurd (hxw ▸ hneww.symm) (fun h => hw h.symm)
      rw [hN0]
      have := hcnt w'
      have := hcount w'
      omega
  · intro r hr hs
    rcases List.mem_append.mp hr with hrB | hrN
    · obtain ⟨y, hy, _, _, _, hstatus, hlat⟩ := hmem r hrB
      rcases hlat with hlat | ⟨_, hny⟩
      · rw [hlat]
        exact hinprog y hy (by rw [hstatus, hs])
      · exact absurd (by rw [hstatus, hs]) hny
    · rw [List.mem_singleton.mp hrN]
      exact hnewl
  · intro r hr r' hr' hwids hlat hid
    rcases List.mem_append.mp hr with hrB | hrN
    · -- the latest row r sits in B, so its wallet is not `wid`
      obtain ⟨y, hy, hyid, hyw, hyst, hystatus, hylat⟩ := hmem r hrB
      have hrlat : y.is_latest = true := by
        rcases hylat with h | ⟨hf, _⟩
        · rw [← h]; exact hlat
        · rw [hf] at hlat; exact absurd hlat (by simp)
      have hrw : r.wallet_id ≠ wid := by
        intro hcon
        rw [hnolat r hrB hcon] at hlat
        exact absurd hlat (by simp)
      rcases List.mem_append.mp hr' with hrB' | hrN'
      · obtain ⟨y', hy', hyid', hyw', hyst', _, _⟩ := hmem r' hrB'
        rw [← hyst', ← hyst]
        refine hmax y hy y' hy' ?_ hrlat ?_
        · rw [hyw, hyw']; exact hwids
        · rw [hyid, hyid']; exact hid
      · rw [List.mem_singleton.mp hrN'] at hwids
        exact absurd (hwids.trans hneww) hrw
    · rw [List.mem_singleton.mp hrN] at hwids hid ⊢
      rcases List.mem_append.mp hr' with hrB' | hrN'
      · obtain ⟨y', hy', _, _, hyst', _, _⟩ := hmem r' hrB'
        rw [← hyst', hnewt]
        exact htime y' hy'
      · rw [List.mem_singleton.mp hrN'] at hid
        exact absurd rfl hid

lemma StoreInv_step (up : Nat → PageStep) (fuel : Nat) (st : Store)
    (wid t t' : Nat) (hin : StoreInv st t) (ht : t < t') :
    StoreInv ((sync_wallet up t fuel st wid).store) t' := by
  rcases sync_wallet_runs_cases up t fuel st wid with heq |
    ⟨cs, φ, hcs, hip, hφ, heq⟩ | ⟨φ, B, hφ, hfresh, heq, hB⟩
  · show RunsInv _ t'
    rw [heq]
    obtain ⟨h1, h2, h3, h4, h5⟩ := hin
    exact ⟨h1, fun r hr => lt_trans (h2 r hr) ht, h3, h4, h5⟩
  · show RunsInv _ t'
    rw [heq]
    have hpred := List.find?_some hcs
    simp only [Bool.and_eq_true] at hpred
    exact RunsInv_map st.sync_runs t t' φ cs hin ht
      (List.mem_of_find?_eq_some hcs) hpred.2 hφ
  · show RunsInv _ t'
    rw [heq]
    have hnewid : (φ (freshRun st wid t)).id = nextRunId st := by
      rw [(hφ.1 (freshRun st wid t)).1]; rfl
    have hneww : (φ (freshRun st wid t)).wallet_id = wid := by
      rw [(hφ.1 (freshRun st wid t)).2.1]; rfl
    have hnewt : (φ (freshRun st wid t)).started_at = t := by
      rw [(hφ.1 (freshRun st wid t)).2.2.1]; rfl
    have hnewl : (φ (freshRun st wid t)).is_latest = true := by
      rw [(hφ.1 (freshRun st wid t)).2.2.2]; rfl
    have hfreshid : ∀ y ∈ st.sync_runs, y.id ≠ (φ (freshRun st wid t)).id := by
      intro y hy
      rw [hnewid]
      exact hfresh y hy
    rcases hB with ⟨hnone, rfl⟩ | ⟨cs, hcs, hip, rfl⟩
    · refine RunsInv_append_fresh st.sync_runs st.sync_runs t t' wid _ hin ht rfl
        (fun x hx => ⟨x, hx, rfl, rfl, rfl, rfl, Or.inl rfl⟩)
        ?_ (fun _ => le_refl _) hfreshid hneww hnewt hnewl
      intro x hx hxw
      have hno := List.find?_eq_none.mp hnone x hx
      cases hl : x.is_latest
      · rfl
      · exact absurd (by simp [hxw, hl]) hno
    · have hpred := List.find?_some hcs
      simp only [Bool.and_eq_true, beq_iff_eq] at hpred
      have csmem := List.mem_of_find?_eq_some hcs
      have hnodup := hin.1
      have hcount := hin.2.2.1
      refine RunsInv_append_fresh st.sync_runs _ t t' wid _ hin ht ?_ ?_ ?_ ?_
        hfreshid hneww hnewt hnewl
      · rw [setRunLatestFalse, List.map_map]
        exact List.map_congr_left (fun a _ => by
          show ((if a.id == cs.id then { a with is_latest := false } else a)).id = a.id
          by_cases h : a.id == cs.id <;> simp [h])
      · intro x hx
        obtain ⟨y, hy, hyx⟩ := List.mem_map.mp (show x ∈ st.sync_runs.map
          (fun r => if r.id == cs.id then { r with is_latest := false } else r) from hx)
        by_cases h : y.id == cs.id
        · have hyx' : x = { y with is_latest := false } := by rw [← hyx]; simp [h]
          have hycs : y = cs := nodup_ids_unique st.sync_runs hnodup y hy cs csmem
            (by simpa using h)
          rw [hyx']
          exact ⟨y, hy, rfl, rfl, rfl, rfl, Or.inr ⟨rfl, by rw [hycs]; exact hip⟩⟩
        · have hyx' : x = y := by rw [← hyx]; simp [h]
          rw [hyx']
          exact ⟨y, hy, rfl, rfl, rfl, rfl, Or.inl rfl⟩
      · intro x hx hxw
        obtain ⟨y, hy, hyx⟩ := List.mem_map.mp (show x ∈ st.sync_runs.map
          (fun r => if r.id == cs.id then { r with is_latest := false } else r) from hx)
        by_cases h : y.id == cs.id
        · rw [← hyx]; simp [h]
        · have hxy : x = y := by rw [← hyx]; simp [h]
          rw [hxy] at hxw ⊢
          cases hl : y.is_latest
          · rfl
          · exfalso
            have hyp : (y.wallet_id == wid && y.is_latest) = true := by
              simp [hxw, hl]
            have hycs : y = cs := countP_le_one_unique _ st.sync_runs (hcount wid)
              y hy hyp cs csmem (by simp [hpred.1, hpred.2])
            exact absurd (by rw [hycs] : y.id = cs.id) (by simpa using h)
      · intro w'
        rw [setRunLatestFalse, List.countP_map]
        apply List.countP_mono_left
        intro y hy hp
        by_cases h : y.id == cs.id
        · exfalso
          revert hp
          simp [Function.comp, h]
        · simpa [Function.comp, h] using hp

lemma StoreInv_of_reachable {st : Store} {t : Nat} (h : Reachable st t) :
    StoreInv st t := by
  induction h with
  | base st t he =>
    show RunsInv st.sync_runs t
    rw [he]
    exact ⟨by simp, by simp, by simp, by simp, by simp⟩
  | step st t t' up fuel wid hre ht ih =>
    exact StoreInv_step up fuel st wid t t' ih ht

/-! ### Claims C8 and C7 -/

/-- Claim C8: in every store reachable by sequential `sync_wallet`
invocations from an empty run table — including every mid-run crash
state — each wallet has at most one `SyncRun` row with status
`in_progress`: an invocation either resumes the in-progress latest run or
supersedes a finished one, never creating a second concurrent
in-progress run. -/
theorem at_most_one_in_progress (st : Store) (t wid : Nat)
    (h : Reachable st t) : inProgressCount st wid ≤ 1 := by
  obtain ⟨_, _, hcount, hinprog, _⟩ := StoreInv_of_reachable h
  calc inProgressCount st wid
      ≤ st.sync_runs.countP (fun r => r.wallet_id == wid && r.is_latest) := by
        apply List.countP_mono_left
        intro r hr hp
        obtain ⟨hw, hs⟩ := of_decide_eq_true hp
        simp [hw, hinprog r hr hs]
    _ ≤ 1 := hcount wid

theorem at_most_one_in_progress_witness : inProgressCount exStep2 1 ≤ 1 :=
  at_most_one_in_progress exStep2 2 1
    (Reachable.step exStep1 1 2 exUpOnePage 9 1
      (Reachable.step exStore 0 1 exUpOnePage 9 1
        (Reachable.base exStore 0 rfl) (by omega)) (by omega))

/-- Claim C7: in every reachable store, the candidate resumable run that
`sync_wallet` looks up for a wallet (`latestRunFor`, the
`filter_by(is_latest=True)` query) is the wallet's most recent `SyncRun`
by start time: every other run of that wallet started strictly earlier.
So the run chosen to resume (or supersede) is the one with the latest
`started_at` timestamp. -/
theorem resumable_run_is_most_recent (st : Store) (t wid : Nat) (r : SyncRun)
    (h : Reachable st t) (hfind : latestRunFor st wid = some r) :
    ∀ r' ∈ st.sync_runs, r'.wallet_id = wid → r'.id ≠ r.id →
      r'.started_at < r.started_at := by
  obtain ⟨_, _, _, _, hmax⟩ := StoreInv_of_reachable h
  intro r' hr' hw hid
  have hmem := List.mem_of_find?_eq_some hfind
  have hp := List.find?_some hfind
  simp only [Bool.and_eq_true, beq_iff_eq] at hp
  exact hmax r hmem r' hr' (hp.1.trans hw.symm) hp.2 hid

theorem resumable_run_is_most_recent_witness :
    exRunOld.started_at < exRunNew.started_at :=
  resumable_run_is_most_recent exStep2 2 1 exRunNew
    (Reachable.step exStep1 1 2 exUpOnePage 9 1
      (Reachable.step exStore 0 1 exUpOnePage 9 1
        (Reachable.base exStore 0 rfl) (by omega)) (by omega))
    (by decide) exRunOld (by decide) (by decide) (by decide)

end Cointracker
